import Mathlib

/-!
Shallow embedding of the `Gameboard` class of `src/gameboard.js` (a 15×15
battleship board) together with proofs about its operations.

JavaScript objects are modelled with explicit heaps so that reference
sharing (aliasing) is captured faithfully:

* `Space` objects (the cells, `src/space.js`) live in `GameState.heap`,
  addressed by `Nat` ids;
* row arrays (the inner arrays of `this.board`) live in `GameState.rows`,
  addressed by `Nat` row-ids, each row holding the ids of its spaces;
* `GameState.board` is the value of the `this.board` field: the list of
  row-ids (the JS outer array of row references).

JS array reads out of range yield `undefined`; we model a read as an
`Option`.  Dereferencing `undefined` throws a `TypeError`; we model a JS
computation that can throw as `Except Unit`.
-/

set_option maxRecDepth 100000

deriving instance DecidableEq for Except

namespace Battleship

/-- A `Space` object (`src/space.js` is not part of the sources).
Modelled from the spec: a Cell has an `occupant`/`parent` — an optional
non-owning reference to a Ship — and an `isHit` boolean, initially false. -/
structure Space where
  parent : Option Nat
  isHit  : Bool
deriving Repr, DecidableEq

/-- A fresh empty Space (`new Space()`): no parent, not hit. -/
def Space.empty : Space := ⟨none, false⟩

/-- Modelled from the spec: `Space.hit()` marks the cell as hit
(idempotent — it only sets the `isHit` flag). -/
def Space.hitMark (sp : Space) : Space := ⟨sp.parent, true⟩

/-- A `Ship` object (`src/ship.js` is not part of the sources).
Modelled from the spec: a ship has an ordered list `hits` of hit-segment
markers (Space objects, here their heap ids), one per unit of length; each
segment carries a back-reference (`parent`) to the ship, identified by
`id`. -/
structure Ship where
  id   : Nat
  hits : List Nat
deriving Repr, DecidableEq

/-- The Position value triple `{col, row, horizontal}`. -/
structure Position where
  col : Int
  row : Int
  horizontal : Bool
deriving Repr, DecidableEq

/-- The mutable state: the Space heap, the row-array heap and the board's
current list of row references (`this.board`). -/
structure GameState where
  heap  : List Space
  rows  : List (List Nat)
  board : List Nat
deriving Repr, DecidableEq

/-- Dereference a Space id (JS: following an object reference; ids written
into the board are always allocated, so the default is never relevant for
reachable states). -/
def getSpace (s : GameState) (id : Nat) : Space := s.heap.getD id Space.empty

/-- Overwrite the Space object stored at `id`. -/
def setSpace (s : GameState) (id : Nat) (sp : Space) : GameState :=
  ⟨s.heap.set id sp, s.rows, s.board⟩

/-- The row array object with row-id `rid`. -/
def rowObj (s : GameState) (rid : Nat) : List Nat := s.rows.getD rid []

/-- JS `this.board[r]` for an arbitrary (possibly negative) index:
`undefined` (`none`) when out of range, otherwise the row-id. -/
def rowIdAt (s : GameState) (r : Int) : Option Nat :=
  if r < 0 then none else s.board[r.toNat]?

/-- JS `this.board[r]` resolved to the row array object. -/
def rowAt (s : GameState) (r : Int) : Option (List Nat) :=
  (rowIdAt s r).map (rowObj s)

/-- JS `row[c]` for an arbitrary (possibly negative) index. -/
def cellAt (row : List Nat) (c : Int) : Option Nat :=
  if c < 0 then none else row[c.toNat]?

/-- JS `this.board[r][c]` as an optional Space id (flattening the two
reads; `none` if either index is out of range). -/
def cellIdAt (s : GameState) (r c : Int) : Option Nat :=
  (rowAt s r).bind (fun row => cellAt row c)

/-- The occupant (`.parent`) of the cell at `(r, c)`: `none` when the cell
is out of range or empty. -/
def occupantAt (s : GameState) (r c : Int) : Option Nat :=
  (cellIdAt s r c).bind (fun id => (getSpace s id).parent)

/-- The row index of the `i`-th cell a ship at `pos` occupies:
JS `row + (!horizontal && i)`. -/
def targetRow (pos : Position) (i : Nat) : Int :=
  pos.row + (if pos.horizontal then 0 else (i : Int))

/-- The column index of the `i`-th cell a ship at `pos` occupies:
JS `col + (horizontal && i)`. -/
def targetCol (pos : Position) (i : Nat) : Int :=
  pos.col + (if pos.horizontal then (i : Int) else 0)

/-- JS `this.board[r][c] = space` (gameboard.js line 31): mutate the row
object in place.  A missing row (`this.board[r]` undefined) would throw in
JS; all claims about `placeShip` assume in-bounds targets, and we model
the unreachable out-of-range writes as no-ops (a negative or too large
column index writes an array property that none of the modelled reads
observe). -/
def writeCell (s : GameState) (r c : Int) (id : Nat) : GameState :=
  match rowIdAt s r with
  | none => s
  | some rid =>
    if c < 0 then s
    else ⟨s.heap, s.rows.set rid ((rowObj s rid).set c.toNat id), s.board⟩

/-- The `ship.hits.forEach((space, i) => ...)` loop of `placeShip`,
started at index `i`. -/
def placeLoop (pos : Position) : GameState → List Nat → Nat → GameState
  | s, [], _ => s
  | s, id :: rest, i =>
    placeLoop pos (writeCell s (targetRow pos i) (targetCol pos i) id) rest (i + 1)

/-- `Gameboard.placeShip` (gameboard.js lines 28–33): store each of the
ship's hit segments into the board cell it covers.  No return value. -/
def placeShip (s : GameState) (pos : Position) (ship : Ship) : GameState :=
  placeLoop pos s ship.hits 0

/-- JS `this.board[r][c].parent` (gameboard.js line 62): both reads
unguarded, so an out-of-range row or column throws. -/
def chkStrict (s : GameState) (r c : Int) : Except Unit Bool :=
  match rowAt s r with
  | none => .error ()
  | some row =>
    match cellAt row c with
    | none => .error ()
    | some id => .ok (getSpace s id).parent.isSome

/-- JS `this.board[r]?.[c].parent` (gameboard.js line 65): an out-of-range
row short-circuits to `undefined` (falsy), but a present row with an
out-of-range column throws on `.parent`. -/
def chkRowGuard (s : GameState) (r c : Int) : Except Unit Bool :=
  match rowAt s r with
  | none => .ok false
  | some row =>
    match cellAt row c with
    | none => .error ()
    | some id => .ok (getSpace s id).parent.isSome

/-- JS `this.board[r][c]?.parent` (gameboard.js line 66): an out-of-range
row throws on indexing, an out-of-range column short-circuits. -/
def chkCellGuard (s : GameState) (r c : Int) : Except Unit Bool :=
  match rowAt s r with
  | none => .error ()
  | some row =>
    match cellAt row c with
    | none => .ok false
    | some id => .ok (getSpace s id).parent.isSome

/-- JS `this.board[r]?.[c]?.parent` (gameboard.js lines 67–68): both reads
guarded, never throws. -/
def chkBothGuard (s : GameState) (r c : Int) : Except Unit Bool :=
  match rowAt s r with
  | none => .ok false
  | some row =>
    match cellAt row c with
    | none => .ok false
    | some id => .ok (getSpace s id).parent.isSome

/-- `if (check) return reject; rest` sequencing inside `canPlace`: a
thrown error propagates, a truthy occupant stops with the rejection
result, otherwise evaluation continues. -/
def stopIf (rejectWith : Bool) (a : Except Unit Bool) (rest : Unit → Except Unit Bool) :
    Except Unit Bool :=
  match a with
  | .error e => .error e
  | .ok true => .ok rejectWith
  | .ok false => rest ()

/-- The occupancy checks `canPlace` performs for the occupied cell
`(r, c)` (gameboard.js lines 62–69, the `offset` loop unrolled:
offset = −1 first, then offset = 1).  Result `true` means some check
fired (the placement is rejected). -/
def cellChecks (s : GameState) (r c : Int) : Except Unit Bool :=
  stopIf true (chkStrict s r c) fun _ =>
  stopIf true (chkRowGuard s (r - 1) c) fun _ =>
  stopIf true (chkCellGuard s r (c - 1)) fun _ =>
  stopIf true (chkBothGuard s (r - 1) (c - 1)) fun _ =>
  stopIf true (chkBothGuard s (r - 1) (c + 1)) fun _ =>
  stopIf true (chkRowGuard s (r + 1) c) fun _ =>
  stopIf true (chkCellGuard s r (c + 1)) fun _ =>
  stopIf true (chkBothGuard s (r + 1) (c + 1)) fun _ =>
  stopIf true (chkBothGuard s (r + 1) (c - 1)) fun _ =>
  .ok false

/-- The `for (let i = 0; i < ship.hits.length; i++)` loop of `canPlace`,
at loop counter `i` with `fuel` iterations left; a firing check returns
`false` for the whole call. -/
def canPlaceLoop (s : GameState) (pos : Position) : Nat → Nat → Except Unit Bool
  | _, 0 => .ok true
  | i, fuel + 1 =>
    stopIf false (cellChecks s (targetRow pos i) (targetCol pos i)) fun _ =>
      canPlaceLoop s pos (i + 1) fuel

/-- The `maxRow` constant of `canPlace`:
`row + (!horizontal && ship.hits.length - 1)`. -/
def maxRowOf (pos : Position) (L : Nat) : Int :=
  pos.row + (if pos.horizontal then 0 else (L : Int) - 1)

/-- The `maxCol` constant of `canPlace`:
`col + (horizontal && ship.hits.length - 1)`. -/
def maxColOf (pos : Position) (L : Nat) : Int :=
  pos.col + (if pos.horizontal then (L : Int) - 1 else 0)

/-- `Gameboard.canPlace` (gameboard.js lines 51–72). -/
def canPlace (s : GameState) (pos : Position) (ship : Ship) : Except Unit Bool :=
  if maxColOf pos ship.hits.length > 14 ∨ maxRowOf pos ship.hits.length > 14 then .ok false
  else canPlaceLoop s pos 0 ship.hits.length

/-- One sample of `Math.floor(Math.random() * 15)` twice and
`Math.random() < 0.5`: a column in `[0, 15)`, a row in `[0, 15)` and an
orientation. -/
def posOf (t : Fin 15 × Fin 15 × Bool) : Position :=
  ⟨(t.1 : Int), (t.2.1 : Int), t.2.2⟩

/-- The retry loop of `findValidPosition`, at attempt `i` with `fuel`
attempts left, drawing attempt `i` from the random source `rng`. -/
def fvpLoop (s : GameState) (ship : Ship) (rng : Nat → Fin 15 × Fin 15 × Bool) :
    Nat → Nat → Except Unit (Option Position)
  | _, 0 => .ok none
  | i, fuel + 1 =>
    match canPlace s (posOf (rng i)) ship with
    | .error e => .error e
    | .ok true => .ok (some (posOf (rng i)))
    | .ok false => fvpLoop s ship rng (i + 1) fuel

/-- `Gameboard.findValidPosition` (gameboard.js lines 80–92): up to
100000 attempts, each testing a random position with `canPlace`; the
random source is passed explicitly. -/
def findValidPosition (s : GameState) (ship : Ship)
    (rng : Nat → Fin 15 × Fin 15 × Bool) : Except Unit (Option Position) :=
  fvpLoop s ship rng 0 100000

/-- The `for (const ship of ships)` loop of `autoPlaceShips`: ship number
`k` draws from the random source `rng k`.  `backup` is
`{ ...this.board }`: the object spread copies the top-level container
only, so it holds the same row references as `this.board`; restoring
assigns that shallow copy back to `this.board`. -/
def autoPlaceLoop (backup : List Nat) (rng : Nat → Nat → Fin 15 × Fin 15 × Bool) :
    GameState → List Ship → Nat → Except Unit (Bool × GameState)
  | s, [], _ => .ok (true, s)
  | s, ship :: rest, k =>
    match findValidPosition s ship (rng k) with
    | .error e => .error e
    | .ok none => .ok (false, ⟨s.heap, s.rows, backup⟩)
    | .ok (some pos) => autoPlaceLoop backup rng (placeShip s pos ship) rest (k + 1)

/-- `Gameboard.autoPlaceShips` (gameboard.js lines 100–113). -/
def autoPlaceShips (s : GameState) (ships : List Ship)
    (rng : Nat → Nat → Fin 15 × Fin 15 × Bool) : Except Unit (Bool × GameState) :=
  autoPlaceLoop s.board rng s ships 0

/-- `Gameboard.receiveAttack` (gameboard.js lines 121–124):
`this.board[row][col].hit()` then return `this.board[row][col].parent`;
an out-of-range coordinate throws. -/
def receiveAttack (s : GameState) (col row : Int) :
    Except Unit (GameState × Option Nat) :=
  match cellIdAt s row col with
  | none => .error ()
  | some id =>
    let s' := setSpace s id (Space.hitMark (getSpace s id))
    .ok (s', (getSpace s' id).parent)

/-- `Gameboard.checkHit` (gameboard.js lines 132–134):
`this.board[row][col].isHit`; an out-of-range coordinate throws. -/
def checkHit (s : GameState) (col row : Int) : Except Unit Bool :=
  match cellIdAt s row col with
  | none => .error ()
  | some id => .ok (getSpace s id).isHit

/-- One step of `resetBoard`'s inner loop: `this.board[i][j] = new
Space()` — allocate a fresh empty Space and store its id at index `j` of
the row object `rid`. -/
def allocFresh (s : GameState) (rid j : Nat) : GameState :=
  ⟨s.heap ++ [Space.empty], s.rows.set rid ((rowObj s rid).set j s.heap.length), s.board⟩

/-- The inner `row.forEach((space, j) => ...)` loop of `resetBoard` over
row object `rid`, at index `j` with `fuel` cells left. -/
def resetRowLoop (rid : Nat) : GameState → Nat → Nat → GameState
  | s, _, 0 => s
  | s, j, fuel + 1 => resetRowLoop rid (allocFresh s rid j) (j + 1) fuel

/-- The outer `this.board.forEach((row, i) => ...)` loop of `resetBoard`,
at row index `i` with `fuel` rows left. -/
def resetBoardLoop : GameState → Nat → Nat → GameState
  | s, _, 0 => s
  | s, i, fuel + 1 =>
    match s.board.get? i with
    | none => s
    | some rid => resetBoardLoop (resetRowLoop rid s 0 (rowObj s rid).length) (i + 1) fuel

/-- `Gameboard.resetBoard` (gameboard.js lines 140–146): replace every
cell of every row with a fresh empty Space. -/
def resetBoard (s : GameState) : GameState := resetBoardLoop s 0 s.board.length

/-- The `Gameboard` constructor (gameboard.js lines 11–15): a 15×15 grid
of fresh Space objects — 225 distinct empty spaces, 15 distinct row
arrays. -/
def mkBoard : GameState :=
  ⟨List.replicate 225 Space.empty,
   (List.range 15).map (fun r => (List.range 15).map (fun c => 15 * r + c)),
   List.range 15⟩

/-- Modelled from the spec: Ship construction (`src/ship.js` is not part
of the sources) — a ship of length `len` allocates `len` fresh unhit
segments, each holding a back-reference to the ship. -/
def mkShip (s : GameState) (shipId len : Nat) : GameState × Ship :=
  (⟨s.heap ++ List.replicate len ⟨some shipId, false⟩, s.rows, s.board⟩,
   ⟨shipId, (List.range len).map (fun i => s.heap.length + i)⟩)

/-- Well-formedness of a reachable board: 15 rows of 15 cells each, the
board's row references distinct, and every stored Space id allocated. -/
def WF (s : GameState) : Prop :=
  s.board.length = 15 ∧ s.board.Nodup ∧
  ∀ rid ∈ s.board, rid < s.rows.length ∧ (rowObj s rid).length = 15 ∧
    ∀ id ∈ rowObj s rid, id < s.heap.length

instance (s : GameState) : Decidable (WF s) := by
  unfold WF; infer_instance

/-- A ship whose segments are allocated and point back to it. -/
def ShipWF (s : GameState) (ship : Ship) : Prop :=
  ∀ id ∈ ship.hits, id < s.heap.length ∧ (getSpace s id).parent = some ship.id

instance (s : GameState) (ship : Ship) : Decidable (ShipWF s ship) := by
  unfold ShipWF; infer_instance

example : WF mkBoard := by decide
example : ShipWF (mkShip mkBoard 1 2).1 (mkShip mkBoard 1 2).2 := by decide
example : canPlace mkBoard ⟨0, 0, true⟩ (mkShip mkBoard 1 2).2 = .ok true := by rfl
example : canPlace mkBoard ⟨14, 0, true⟩ (mkShip mkBoard 1 2).2 = .ok false := by rfl
example : canPlace mkBoard ⟨-1, 0, true⟩ (mkShip mkBoard 1 1).2 = .error () := by rfl

/-! ### The specification predicate for `canPlace` (claim C2's wording) -/

/-- The cell `(r, c)` lies on the 15×15 grid. -/
def InGrid (r c : Int) : Prop := 0 ≤ r ∧ r ≤ 14 ∧ 0 ≤ c ∧ c ≤ 14

instance (r c : Int) : Decidable (InGrid r c) := by
  unfold InGrid; infer_instance

/-- The cell `(r, c)` has an occupant (out-of-grid cells never do). -/
def occupiedB (s : GameState) (r c : Int) : Bool := (occupantAt s r c).isSome

/-- Some of the 8 neighbors (orthogonal and diagonal) of `(r, c)` has an
occupant; neighbors outside the grid are never occupied. -/
def neighborOccupied (s : GameState) (r c : Int) : Bool :=
  occupiedB s (r - 1) c || occupiedB s r (c - 1) ||
  occupiedB s (r - 1) (c - 1) || occupiedB s (r - 1) (c + 1) ||
  occupiedB s (r + 1) c || occupiedB s r (c + 1) ||
  occupiedB s (r + 1) (c + 1) || occupiedB s (r + 1) (c - 1)

/-- The specification of `canPlace`, following the spec's words: the last
occupied cell (origin plus length − 1 along the orientation axis) is at
most 14 in both axes, no occupied footprint cell, and no occupied
neighbor of a footprint cell. -/
def canPlaceSpec (s : GameState) (pos : Position) (ship : Ship) : Bool :=
  (decide (targetRow pos (ship.hits.length - 1) ≤ 14) &&
   decide (targetCol pos (ship.hits.length - 1) ≤ 14)) &&
  (List.range ship.hits.length).all (fun i =>
    !occupiedB s (targetRow pos i) (targetCol pos i) &&
    !neighborOccupied s (targetRow pos i) (targetCol pos i))

/-! ### Basic access lemmas -/

lemma rowAt_eq_some (s : GameState) (hWF : WF s) (r : Int)
    (h0 : 0 ≤ r) (h14 : r ≤ 14) :
    ∃ rid, rid ∈ s.board ∧ rowAt s r = some (rowObj s rid) := by
  obtain ⟨hlen, -, -⟩ := hWF
  have hlt : r.toNat < s.board.length := by omega
  obtain ⟨rid, hrid⟩ : ∃ rid, s.board[r.toNat]? = some rid := by
    cases h : s.board[r.toNat]? with
    | none => exact absurd (List.getElem?_eq_none_iff.mp h) (by omega)
    | some rid => exact ⟨rid, rfl⟩
  refine ⟨rid, List.getElem?_mem hrid, ?_⟩
  simp [rowAt, rowIdAt, not_lt.mpr h0, hrid]

lemma rowAt_eq_none (s : GameState) (hWF : WF s) (r : Int)
    (h : r < 0 ∨ 14 < r) : rowAt s r = none := by
  obtain ⟨hlen, -, -⟩ := hWF
  rcases h with h | h
  · simp [rowAt, rowIdAt, h]
  · have : s.board.length ≤ r.toNat := by omega
    simp [rowAt, rowIdAt, List.getElem?_eq_none_iff.mpr this]

lemma cellAt_eq_some (row : List Nat) (hlen : row.length = 15) (c : Int)
    (h0 : 0 ≤ c) (h14 : c ≤ 14) :
    ∃ id, row[c.toNat]? = some id ∧ cellAt row c = some id := by
  obtain ⟨id, hid⟩ : ∃ id, row[c.toNat]? = some id := by
    cases h : row[c.toNat]? with
    | none => exact absurd (List.getElem?_eq_none_iff.mp h) (by omega)
    | some id => exact ⟨id, rfl⟩
  exact ⟨id, hid, by simp [cellAt, not_lt.mpr h0, hid]⟩

lemma cellAt_eq_none (row : List Nat) (hlen : row.length = 15) (c : Int)
    (h : c < 0 ∨ 14 < c) : cellAt row c = none := by
  rcases h with h | h
  · simp [cellAt, h]
  · have : row.length ≤ c.toNat := by omega
    simp [cellAt, List.getElem?_eq_none_iff.mpr this]

/-- On a well-formed board every in-grid cell resolves to an allocated
Space id. -/
lemma cellIdAt_grid (s : GameState) (hWF : WF s) (r c : Int) (h : InGrid r c) :
    ∃ id, cellIdAt s r c = some id ∧ id < s.heap.length ∧
      occupantAt s r c = (getSpace s id).parent := by
  obtain ⟨hr0, hr14, hc0, hc14⟩ := h
  obtain ⟨rid, hmem, hrow⟩ := rowAt_eq_some s hWF r hr0 hr14
  obtain ⟨-, -, hprops⟩ := hWF
  obtain ⟨-, hrlen, hids⟩ := hprops rid hmem
  obtain ⟨id, hget, hcell⟩ := cellAt_eq_some (rowObj s rid) hrlen c hc0 hc14
  refine ⟨id, ?_, hids id (List.getElem?_mem hget), ?_⟩
  · simp [cellIdAt, hrow, hcell]
  · simp [occupantAt, cellIdAt, hrow, hcell]

/-! ### The `cellChecks` characterization -/

lemma occupiedB_eq (s : GameState) (r c : Int) (row : List Nat)
    (hrow : rowAt s r = some row) (id : Nat) (hcell : cellAt row c = some id) :
    occupiedB s r c = (getSpace s id).parent.isSome := by
  simp [occupiedB, occupantAt, cellIdAt, hrow, hcell]

lemma occupiedB_out_row (s : GameState) (r c : Int) (hrow : rowAt s r = none) :
    occupiedB s r c = false := by
  simp [occupiedB, occupantAt, cellIdAt, hrow]

lemma occupiedB_out_cell (s : GameState) (r c : Int) (row : List Nat)
    (hrow : rowAt s r = some row) (hcell : cellAt row c = none) :
    occupiedB s r c = false := by
  simp [occupiedB, occupantAt, cellIdAt, hrow, hcell]

lemma chkStrict_eq (s : GameState) (hWF : WF s) (r c : Int) (h : InGrid r c) :
    chkStrict s r c = .ok (occupiedB s r c) := by
  obtain ⟨hr0, hr14, hc0, hc14⟩ := h
  obtain ⟨rid, hmem, hrow⟩ := rowAt_eq_some s hWF r hr0 hr14
  obtain ⟨-, -, hprops⟩ := hWF
  obtain ⟨-, hrlen, -⟩ := hprops rid hmem
  obtain ⟨id, -, hcell⟩ := cellAt_eq_some (rowObj s rid) hrlen c hc0 hc14
  rw [occupiedB_eq s r c _ hrow id hcell]
  simp [chkStrict, hrow, hcell]

lemma chkRowGuard_eq (s : GameState) (hWF : WF s) (r c : Int)
    (hc0 : 0 ≤ c) (hc14 : c ≤ 14) :
    chkRowGuard s r c = .ok (occupiedB s r c) := by
  by_cases hr : 0 ≤ r ∧ r ≤ 14
  · obtain ⟨rid, hmem, hrow⟩ := rowAt_eq_some s hWF r hr.1 hr.2
    obtain ⟨-, -, hprops⟩ := hWF
    obtain ⟨-, hrlen, -⟩ := hprops rid hmem
    obtain ⟨id, -, hcell⟩ := cellAt_eq_some (rowObj s rid) hrlen c hc0 hc14
    rw [occupiedB_eq s r c _ hrow id hcell]
    simp [chkRowGuard, hrow, hcell]
  · have hrow := rowAt_eq_none s hWF r (by omega)
    rw [occupiedB_out_row s r c hrow]
    simp [chkRowGuard, hrow]

lemma chkCellGuard_eq (s : GameState) (hWF : WF s) (r c : Int)
    (hr0 : 0 ≤ r) (hr14 : r ≤ 14) :
    chkCellGuard s r c = .ok (occupiedB s r c) := by
  obtain ⟨rid, hmem, hrow⟩ := rowAt_eq_some s hWF r hr0 hr14
  obtain ⟨-, -, hprops⟩ := hWF
  obtain ⟨-, hrlen, -⟩ := hprops rid hmem
  by_cases hc : 0 ≤ c ∧ c ≤ 14
  · obtain ⟨id, -, hcell⟩ := cellAt_eq_some (rowObj s rid) hrlen c hc.1 hc.2
    rw [occupiedB_eq s r c _ hrow id hcell]
    simp [chkCellGuard, hrow, hcell]
  · have hcell := cellAt_eq_none (rowObj s rid) hrlen c (by omega)
    rw [occupiedB_out_cell s r c _ hrow hcell]
    simp [chkCellGuard, hrow, hcell]

lemma chkBothGuard_eq (s : GameState) (hWF : WF s) (r c : Int) :
    chkBothGuard s r c = .ok (occupiedB s r c) := by
  by_cases hr : 0 ≤ r ∧ r ≤ 14
  · obtain ⟨rid, hmem, hrow⟩ := rowAt_eq_some s hWF r hr.1 hr.2
    obtain ⟨-, -, hprops⟩ := hWF
    obtain ⟨-, hrlen, -⟩ := hprops rid hmem
    by_cases hc : 0 ≤ c ∧ c ≤ 14
    · obtain ⟨id, -, hcell⟩ := cellAt_eq_some (rowObj s rid) hrlen c hc.1 hc.2
      rw [occupiedB_eq s r c _ hrow id hcell]
      simp [chkBothGuard, hrow, hcell]
    · have hcell := cellAt_eq_none (rowObj s rid) hrlen c (by omega)
      rw [occupiedB_out_cell s r c _ hrow hcell]
      simp [chkBothGuard, hrow, hcell]
  · have hrow := rowAt_eq_none s hWF r (by omega)
    rw [occupiedB_out_row s r c hrow]
    simp [chkBothGuard, hrow]

lemma stopIf_ok_or (w b c : Bool) (rest : Unit → Except Unit Bool)
    (h : rest () = .ok c) :
    stopIf w (.ok b) rest = .ok (bif b then w else c) := by
  cases b <;> simp [stopIf, h]

/-- On a well-formed board, the nine occupancy checks for an in-grid cell
never throw and fire exactly when the cell or one of its 8 neighbors is
occupied. -/
lemma cellChecks_eq (s : GameState) (hWF : WF s) (r c : Int) (h : InGrid r c) :
    cellChecks s r c = .ok (occupiedB s r c || neighborOccupied s r c) := by
  obtain ⟨hr0, hr14, hc0, hc14⟩ := h
  unfold cellChecks
  rw [chkStrict_eq s hWF r c ⟨hr0, hr14, hc0, hc14⟩]
  simp only [chkRowGuard_eq s hWF (r - 1) c hc0 hc14,
    chkRowGuard_eq s hWF (r + 1) c hc0 hc14,
    chkCellGuard_eq s hWF r (c - 1) hr0 hr14,
    chkCellGuard_eq s hWF r (c + 1) hr0 hr14,
    chkBothGuard_eq s hWF (r - 1) (c - 1), chkBothGuard_eq s hWF (r - 1) (c + 1),
    chkBothGuard_eq s hWF (r + 1) (c + 1), chkBothGuard_eq s hWF (r + 1) (c - 1)]
  refine Eq.trans (stopIf_ok_or _ _ _ _ (stopIf_ok_or _ _ _ _ (stopIf_ok_or _ _ _ _
    (stopIf_ok_or _ _ _ _ (stopIf_ok_or _ _ _ _ (stopIf_ok_or _ _ _ _
    (stopIf_ok_or _ _ _ _ (stopIf_ok_or _ _ _ _ (stopIf_ok_or _ _ _ _ rfl))))))))) ?_
  congr 1
  simp only [neighborOccupied, Bool.cond_true_left, Bool.cond_false_left]
  cases occupiedB s r c <;>
    cases occupiedB s (r - 1) c <;>
    cases occupiedB s r (c - 1) <;>
    cases occupiedB s (r - 1) (c - 1) <;>
    cases occupiedB s (r - 1) (c + 1) <;>
    cases occupiedB s (r + 1) c <;>
    cases occupiedB s r (c + 1) <;>
    cases occupiedB s (r + 1) (c + 1) <;>
    cases occupiedB s (r + 1) (c - 1) <;> rfl

/-! ### The `canPlace` loop characterization -/

lemma targetRow_zero (pos : Position) : targetRow pos 0 = pos.row := by
  cases h : pos.horizontal <;> simp [targetRow, h]

lemma targetCol_zero (pos : Position) : targetCol pos 0 = pos.col := by
  cases h : pos.horizontal <;> simp [targetCol, h]

lemma stopIf_error (w : Bool) (e : Unit) (rest : Unit → Except Unit Bool) :
    stopIf w (.error e) rest = .error e := rfl

lemma canPlaceLoop_eq (s : GameState) (pos : Position) (hWF : WF s) (fuel : Nat) :
    ∀ i, (∀ j, j < fuel → InGrid (targetRow pos (i + j)) (targetCol pos (i + j))) →
    canPlaceLoop s pos i fuel =
      .ok ((List.range' i fuel).all fun k =>
        !occupiedB s (targetRow pos k) (targetCol pos k) &&
        !neighborOccupied s (targetRow pos k) (targetCol pos k)) := by
  induction fuel with
  | zero => intro i _; simp [canPlaceLoop]
  | succ fuel ih =>
    intro i h
    have h0 := h 0 (Nat.succ_pos fuel)
    rw [Nat.add_zero] at h0
    have hrest : ∀ j, j < fuel →
        InGrid (targetRow pos (i + 1 + j)) (targetCol pos (i + 1 + j)) := by
      intro j hj
      have := h (j + 1) (by omega)
      rwa [show i + (j + 1) = i + 1 + j by omega] at this
    unfold canPlaceLoop
    rw [cellChecks_eq s hWF _ _ h0, List.range'_succ]
    cases hocc : occupiedB s (targetRow pos i) (targetCol pos i) ||
        neighborOccupied s (targetRow pos i) (targetCol pos i) with
    | true =>
      have hf : (!occupiedB s (targetRow pos i) (targetCol pos i) &&
          !neighborOccupied s (targetRow pos i) (targetCol pos i)) = false := by
        rw [← Bool.not_or, hocc]; rfl
      simp [stopIf, hf]
    | false =>
      have hf : (!occupiedB s (targetRow pos i) (targetCol pos i) &&
          !neighborOccupied s (targetRow pos i) (targetCol pos i)) = true := by
        rw [← Bool.not_or, hocc]; rfl
      simp [stopIf, hf, ih (i + 1) hrest]

/-- If the bounds check of `canPlace` passes and the origin is
nonnegative, the whole footprint lies on the grid. -/
lemma footprint_inGrid (pos : Position) (L : Nat) (hc : 0 ≤ pos.col) (hr : 0 ≤ pos.row)
    (hbc : maxColOf pos L ≤ 14) (hbr : maxRowOf pos L ≤ 14) :
    ∀ j, j < L → InGrid (targetRow pos j) (targetCol pos j) := by
  intro j hj
  unfold maxColOf at hbc
  unfold maxRowOf at hbr
  unfold InGrid targetRow targetCol
  cases h : pos.horizontal <;> simp [h] at hbc hbr ⊢ <;> omega

/-- The functional specification of `canPlace` for nonnegative origins on
a well-formed board: it returns (without throwing) exactly the value of
`canPlaceSpec`. -/
lemma canPlace_eq_spec (s : GameState) (pos : Position) (ship : Ship) (hWF : WF s)
    (hc : 0 ≤ pos.col) (hr : 0 ≤ pos.row) (hL : 1 ≤ ship.hits.length) :
    canPlace s pos ship = .ok (canPlaceSpec s pos ship) := by
  have hcast : ((ship.hits.length - 1 : Nat) : Int) = (ship.hits.length : Int) - 1 := by
    omega
  have e1 : targetRow pos (ship.hits.length - 1) = maxRowOf pos ship.hits.length := by
    cases h : pos.horizontal <;> simp [targetRow, maxRowOf, h, hcast]
  have e2 : targetCol pos (ship.hits.length - 1) = maxColOf pos ship.hits.length := by
    cases h : pos.horizontal <;> simp [targetCol, maxColOf, h, hcast]
  by_cases hb : maxColOf pos ship.hits.length ≤ 14 ∧ maxRowOf pos ship.hits.length ≤ 14
  · have hgrid := footprint_inGrid pos ship.hits.length hc hr hb.1 hb.2
    have hloop := canPlaceLoop_eq s pos hWF ship.hits.length 0 (by
      intro j hj
      simpa using hgrid j hj)
    unfold canPlace canPlaceSpec
    rw [if_neg (by omega), hloop, ← List.range_eq_range', e1, e2]
    have hb2 : (decide (maxRowOf pos ship.hits.length ≤ 14) &&
        decide (maxColOf pos ship.hits.length ≤ 14)) = true := by
      simp [hb.1, hb.2]
    rw [hb2, Bool.true_and]
  · unfold canPlace canPlaceSpec
    rw [if_pos (by omega), e1, e2]
    have : (decide (targetRow pos (ship.hits.length - 1) ≤ 14) &&
        decide (targetCol pos (ship.hits.length - 1) ≤ 14)) = false := by
      rw [e1, e2]
      rcases not_and_or.mp hb with hb' | hb' <;> simp [not_le.mp hb']
    rw [e1, e2] at this
    rw [this, Bool.false_and]

/-- For a nonnegative origin on a well-formed board, `canPlace` never
throws, whatever the ship's length. -/
lemma canPlace_no_throw (s : GameState) (pos : Position) (ship : Ship) (hWF : WF s)
    (hc : 0 ≤ pos.col) (hr : 0 ≤ pos.row) :
    ∃ b, canPlace s pos ship = .ok b := by
  rcases Nat.eq_zero_or_pos ship.hits.length with h0 | hL
  · unfold canPlace
    by_cases hb : maxColOf pos ship.hits.length > 14 ∨ maxRowOf pos ship.hits.length > 14
    · exact ⟨false, by rw [if_pos hb]⟩
    · exact ⟨true, by rw [if_neg hb, h0]; rfl⟩
  · exact ⟨_, canPlace_eq_spec s pos ship hWF hc hr hL⟩

/-- `this.board[r][c].parent` throws whenever an index is negative. -/
lemma chkStrict_neg (s : GameState) (r c : Int) (h : r < 0 ∨ c < 0) :
    chkStrict s r c = .error () := by
  unfold chkStrict
  rcases h with h | h
  · rw [show rowAt s r = none by simp [rowAt, rowIdAt, h]]
  · cases hrow : rowAt s r with
    | none => rfl
    | some row => simp [show cellAt row c = none by simp [cellAt, h]]

/-- A successful (`true`) `canPlace` of a nonempty ship implies the
origin was nonnegative (otherwise the first occupancy check throws). -/
lemma canPlace_ok_true_nonneg (s : GameState) (pos : Position) (ship : Ship)
    (hL : 1 ≤ ship.hits.length) (h : canPlace s pos ship = .ok true) :
    0 ≤ pos.col ∧ 0 ≤ pos.row := by
  by_contra hneg
  have hneg' : pos.row < 0 ∨ pos.col < 0 := by omega
  obtain ⟨f, hf⟩ : ∃ f, ship.hits.length = f + 1 := ⟨ship.hits.length - 1, by omega⟩
  unfold canPlace at h
  rw [hf] at h
  split at h
  · exact absurd h (by simp)
  · unfold canPlaceLoop at h
    rw [show cellChecks s (targetRow pos 0) (targetCol pos 0) = .error () by
      unfold cellChecks
      rw [targetRow_zero, targetCol_zero, chkStrict_neg s pos.row pos.col hneg']
      rfl] at h
    exact absurd h (by simp [stopIf])

/-! ### `placeShip`: effect and frame lemmas -/

lemma getD_set_self (l : List (List Nat)) (i : Nat) (a d : List Nat) (h : i < l.length) :
    (l.set i a).getD i d = a := by
  simp [List.getD_eq_getElem?_getD, List.getElem?_set_self h]

lemma getD_set_ne (l : List (List Nat)) (i j : Nat) (a d : List Nat) (h : i ≠ j) :
    (l.set i a).getD j d = l.getD j d := by
  simp [List.getD_eq_getElem?_getD, List.getElem?_set_ne h]

lemma rowIdAt_eq_some (s : GameState) (hWF : WF s) (r : Int)
    (h0 : 0 ≤ r) (h14 : r ≤ 14) :
    ∃ rid, rowIdAt s r = some rid ∧ rid ∈ s.board := by
  obtain ⟨hlen, -, -⟩ := hWF
  obtain ⟨rid, hrid⟩ : ∃ rid, s.board[r.toNat]? = some rid := by
    cases h : s.board[r.toNat]? with
    | none => exact absurd (List.getElem?_eq_none_iff.mp h) (by omega)
    | some rid => exact ⟨rid, rfl⟩
  exact ⟨rid, by simp [rowIdAt, not_lt.mpr h0, hrid], List.getElem?_mem hrid⟩

lemma writeCell_heap (s : GameState) (r c : Int) (id : Nat) :
    (writeCell s r c id).heap = s.heap := by
  unfold writeCell
  cases rowIdAt s r with
  | none => rfl
  | some rid => by_cases h : c < 0 <;> simp [h]

lemma writeCell_board (s : GameState) (r c : Int) (id : Nat) :
    (writeCell s r c id).board = s.board := by
  unfold writeCell
  cases rowIdAt s r with
  | none => rfl
  | some rid => by_cases h : c < 0 <;> simp [h]

lemma getSpace_writeCell (s : GameState) (r c : Int) (id id' : Nat) :
    getSpace (writeCell s r c id) id' = getSpace s id' := by
  simp [getSpace, writeCell_heap]

/-- Unfolding `writeCell` when the row exists and the column is
nonnegative. -/
lemma writeCell_eq_of_some (s : GameState) (r c : Int) (id rid : Nat)
    (hrid : rowIdAt s r = some rid) (hc : 0 ≤ c) :
    writeCell s r c id =
      ⟨s.heap, s.rows.set rid ((rowObj s rid).set c.toNat id), s.board⟩ := by
  unfold writeCell
  rw [hrid]
  simp [not_lt.mpr hc]

/-- Reading back the cell just written. -/
lemma writeCell_same (s : GameState) (hWF : WF s) (r c : Int) (h : InGrid r c)
    (id : Nat) : cellIdAt (writeCell s r c id) r c = some id := by
  obtain ⟨hr0, hr14, hc0, hc14⟩ := h
  obtain ⟨rid, hrid, hmem⟩ := rowIdAt_eq_some s hWF r hr0 hr14
  obtain ⟨-, -, hprops⟩ := hWF
  obtain ⟨hridlt, hrlen, -⟩ := hprops rid hmem
  rw [writeCell_eq_of_some s r c id rid hrid hc0]
  have hrow : rowObj ⟨s.heap, s.rows.set rid ((rowObj s rid).set c.toNat id), s.board⟩ rid =
      (rowObj s rid).set c.toNat id := by
    unfold rowObj
    exact getD_set_self s.rows rid _ [] hridlt
  have hcnat : c.toNat < (rowObj s rid).length := by omega
  simp [cellIdAt, rowAt, rowIdAt, not_lt.mpr hr0, show s.board[r.toNat]? = some rid by
      have := hrid; unfold rowIdAt at this; rwa [if_neg (not_lt.mpr hr0)] at this,
    hrow, cellAt, not_lt.mpr hc0, List.getElem?_set_self (by simpa using hcnat)]

/-- A write leaves every other cell untouched (the written cell is
in-grid; the read cell is arbitrary). -/
lemma writeCell_other (s : GameState) (hWF : WF s) (r c : Int) (h : InGrid r c)
    (id : Nat) (r' c' : Int) (hne : (r', c') ≠ (r, c)) :
    cellIdAt (writeCell s r c id) r' c' = cellIdAt s r' c' := by
  obtain ⟨hr0, hr14, hc0, hc14⟩ := h
  obtain ⟨rid, hrid, hmem⟩ := rowIdAt_eq_some s hWF r hr0 hr14
  have hnodup := hWF.2.1
  obtain ⟨-, -, hprops⟩ := hWF
  obtain ⟨hridlt, hrlen, -⟩ := hprops rid hmem
  have hb : s.board[r.toNat]? = some rid := by
    have h' := hrid
    unfold rowIdAt at h'
    rwa [if_neg (not_lt.mpr hr0)] at h'
  rw [writeCell_eq_of_some s r c id rid hrid hc0]
  by_cases hrneg : r' < 0
  · simp [cellIdAt, rowAt, rowIdAt, hrneg]
  · cases hrid' : s.board[(r').toNat]? with
    | none => simp [cellIdAt, rowAt, rowIdAt, hrneg, hrid']
    | some rid' =>
      by_cases hrr : r' = r
      · have hcopy := hrid'
        rw [hrr, hb] at hcopy
        have hr2 : rid' = rid := (Option.some.inj hcopy).symm
        have hcc : c' ≠ c := fun hcc => hne (by rw [hrr, hcc])
        by_cases hcneg : c' < 0
        · simp [cellIdAt, rowAt, rowIdAt, hrneg, hrid', hr2, rowObj, cellAt, hcneg]
        · have hcn : c'.toNat ≠ c.toNat := by omega
          simp [cellIdAt, rowAt, rowIdAt, hrneg, hrid', hr2, rowObj, cellAt, hcneg,
            List.getElem?_set_self hridlt, List.getElem?_set_ne (Ne.symm hcn)]
      · have hne' : rid ≠ rid' := by
          intro heq
          have h2 : s.board[(r').toNat]? = some rid := by rw [hrid', heq]
          have hlt : r.toNat < s.board.length := by
            by_contra hge
            rw [List.getElem?_eq_none_iff.mpr (by omega)] at hb
            cases hb
          have := List.getElem?_inj hlt hnodup (hb.trans h2.symm)
          omega
        simp [cellIdAt, rowAt, rowIdAt, hrneg, hrid', rowObj,
          List.getElem?_set_ne hne']

/-- Writing an allocated id preserves well-formedness. -/
lemma WF_writeCell (s : GameState) (hWF : WF s) (r c : Int) (id : Nat)
    (hid : id < s.heap.length) : WF (writeCell s r c id) := by
  cases hrid : rowIdAt s r with
  | none =>
    rw [show writeCell s r c id = s by unfold writeCell; rw [hrid]]
    exact hWF
  | some rid =>
    by_cases hc : c < 0
    · rw [show writeCell s r c id = s by unfold writeCell; rw [hrid]; simp [hc]]
      exact hWF
    · rw [writeCell_eq_of_some s r c id rid hrid (by omega)]
      obtain ⟨hlen, hnodup, hprops⟩ := hWF
      refine ⟨hlen, hnodup, ?_⟩
      intro rid' hmem'
      obtain ⟨h1, h2, h3⟩ := hprops rid' hmem'
      by_cases heq : rid = rid'
      · subst heq
        refine ⟨by simpa using h1, ?_, ?_⟩
        · rw [show rowObj ⟨s.heap, s.rows.set rid ((rowObj s rid).set c.toNat id),
            s.board⟩ rid = (rowObj s rid).set c.toNat id from
            getD_set_self s.rows rid _ [] h1]
          simpa using h2
        · rw [show rowObj ⟨s.heap, s.rows.set rid ((rowObj s rid).set c.toNat id),
            s.board⟩ rid = (rowObj s rid).set c.toNat id from
            getD_set_self s.rows rid _ [] h1]
          intro id' hid'
          rcases List.mem_or_eq_of_mem_set hid' with h | h
          · exact h3 id' h
          · subst h; exact hid
      · refine ⟨by simpa using h1, ?_, ?_⟩
        · rw [show rowObj ⟨s.heap, s.rows.set rid ((rowObj s rid).set c.toNat id),
            s.board⟩ rid' = rowObj s rid' from getD_set_ne s.rows rid rid' _ [] heq]
          exact h2
        · rw [show rowObj ⟨s.heap, s.rows.set rid ((rowObj s rid).set c.toNat id),
            s.board⟩ rid' = rowObj s rid' from getD_set_ne s.rows rid rid' _ [] heq]
          exact h3

/-- Two distinct footprint indices land on distinct cells. -/
lemma targets_distinct (pos : Position) (i j : Nat) (hne : i ≠ j) :
    (targetRow pos i, targetCol pos i) ≠ (targetRow pos j, targetCol pos j) := by
  cases h : pos.horizontal <;> simp [targetRow, targetCol, h] <;> omega

lemma placeLoop_heap (pos : Position) :
    ∀ (l : List Nat) (s : GameState) (i : Nat), (placeLoop pos s l i).heap = s.heap := by
  intro l
  induction l with
  | nil => intro s i; rfl
  | cons id rest ih =>
    intro s i
    unfold placeLoop
    rw [ih, writeCell_heap]

lemma placeLoop_board (pos : Position) :
    ∀ (l : List Nat) (s : GameState) (i : Nat), (placeLoop pos s l i).board = s.board := by
  intro l
  induction l with
  | nil => intro s i; rfl
  | cons id rest ih =>
    intro s i
    unfold placeLoop
    rw [ih, writeCell_board]

lemma WF_placeLoop (pos : Position) :
    ∀ (l : List Nat) (s : GameState) (i : Nat), WF s →
    (∀ id ∈ l, id < s.heap.length) → WF (placeLoop pos s l i) := by
  intro l
  induction l with
  | nil => intro s i hWF _; exact hWF
  | cons id rest ih =>
    intro s i hWF hids
    unfold placeLoop
    refine ih _ _ (WF_writeCell s hWF _ _ id (hids id (by simp))) ?_
    intro id' hid'
    rw [writeCell_heap]
    exact hids id' (by simp [hid'])

/-- Cells outside the written footprint are untouched by the loop. -/
lemma placeLoop_frame (pos : Position) :
    ∀ (l : List Nat) (s : GameState) (i : Nat), WF s →
    (∀ id ∈ l, id < s.heap.length) →
    (∀ j, j < l.length → InGrid (targetRow pos (i + j)) (targetCol pos (i + j))) →
    ∀ r c : Int,
    (∀ j, j < l.length → (r, c) ≠ (targetRow pos (i + j), targetCol pos (i + j))) →
    cellIdAt (placeLoop pos s l i) r c = cellIdAt s r c := by
  intro l
  induction l with
  | nil => intro s i _ _ _ r c _; rfl
  | cons id rest ih =>
    intro s i hWF hids hin r c hout
    have h0 : InGrid (targetRow pos i) (targetCol pos i) := by
      simpa using hin 0 (by simp)
    unfold placeLoop
    rw [ih (writeCell s (targetRow pos i) (targetCol pos i) id) (i + 1)
        (WF_writeCell s hWF _ _ id (hids id (by simp)))
        (by intro id' hid'; rw [writeCell_heap]; exact hids id' (by simp [hid']))
        (by intro j hj
            have := hin (j + 1) (by simpa using hj)
            rwa [show i + (j + 1) = i + 1 + j by omega] at this)
        r c
        (by intro j hj
            have := hout (j + 1) (by simpa using hj)
            rwa [show i + (j + 1) = i + 1 + j by omega] at this)]
    exact writeCell_other s hWF _ _ h0 id r c (by simpa using hout 0 (by simp))

/-- The loop stores segment `j` into footprint cell `j`. -/
lemma placeLoop_effect (pos : Position) :
    ∀ (l : List Nat) (s : GameState) (i : Nat), WF s →
    (∀ id ∈ l, id < s.heap.length) →
    (∀ j, j < l.length → InGrid (targetRow pos (i + j)) (targetCol pos (i + j))) →
    ∀ j, j < l.length →
      cellIdAt (placeLoop pos s l i) (targetRow pos (i + j)) (targetCol pos (i + j)) =
        some (l.getD j 0) := by
  intro l
  induction l with
  | nil => intro s i _ _ _ j hj; exact absurd hj (by simp)
  | cons id rest ih =>
    intro s i hWF hids hin j hj
    have h0 : InGrid (targetRow pos i) (targetCol pos i) := by
      simpa using hin 0 (by simp)
    have hWF1 : WF (writeCell s (targetRow pos i) (targetCol pos i) id) :=
      WF_writeCell s hWF _ _ id (hids id (by simp))
    have hids1 : ∀ id' ∈ rest, id' < (writeCell s (targetRow pos i) (targetCol pos i) id).heap.length := by
      intro id' hid'
      rw [writeCell_heap]
      exact hids id' (by simp [hid'])
    have hin1 : ∀ j', j' < rest.length →
        InGrid (targetRow pos (i + 1 + j')) (targetCol pos (i + 1 + j')) := by
      intro j' hj'
      have := hin (j' + 1) (by simpa using hj')
      rwa [show i + (j' + 1) = i + 1 + j' by omega] at this
    cases j with
    | zero =>
      unfold placeLoop
      have hframe := placeLoop_frame pos rest
        (writeCell s (targetRow pos i) (targetCol pos i) id) (i + 1) hWF1 hids1 hin1
        (targetRow pos i) (targetCol pos i)
        (by intro j' hj'
            exact targets_distinct pos i (i + 1 + j') (by omega))
      have hsame := writeCell_same s hWF (targetRow pos i) (targetCol pos i) h0 id
      simpa using hframe.trans hsame
    | succ j' =>
      unfold placeLoop
      have := ih (writeCell s (targetRow pos i) (targetCol pos i) id) (i + 1)
        hWF1 hids1 hin1 j' (by simpa using hj)
      rw [show i + 1 + j' = i + (j' + 1) by omega] at this
      simpa using this

lemma placeShip_heap (s : GameState) (pos : Position) (ship : Ship) :
    (placeShip s pos ship).heap = s.heap := placeLoop_heap pos ship.hits s 0

lemma placeShip_board (s : GameState) (pos : Position) (ship : Ship) :
    (placeShip s pos ship).board = s.board := placeLoop_board pos ship.hits s 0

lemma getSpace_placeShip (s : GameState) (pos : Position) (ship : Ship) (id : Nat) :
    getSpace (placeShip s pos ship) id = getSpace s id := by
  simp [getSpace, placeShip_heap]

lemma WF_placeShip (s : GameState) (pos : Position) (ship : Ship) (hWF : WF s)
    (hids : ∀ id ∈ ship.hits, id < s.heap.length) : WF (placeShip s pos ship) :=
  WF_placeLoop pos ship.hits s 0 hWF hids

/-- Claim C5's effect statement, at the level of stored Space ids: after
`placeShip`, footprint cell `j` holds the ship's `j`-th hit segment. -/
lemma placeShip_effect (s : GameState) (pos : Position) (ship : Ship) (hWF : WF s)
    (hids : ∀ id ∈ ship.hits, id < s.heap.length)
    (hin : ∀ j, j < ship.hits.length → InGrid (targetRow pos j) (targetCol pos j)) :
    ∀ j, j < ship.hits.length →
      cellIdAt (placeShip s pos ship) (targetRow pos j) (targetCol pos j) =
        some (ship.hits.getD j 0) := by
  intro j hj
  have := placeLoop_effect pos ship.hits s 0 hWF hids (by simpa using hin) j hj
  simpa using this

lemma placeShip_frame (s : GameState) (pos : Position) (ship : Ship) (hWF : WF s)
    (hids : ∀ id ∈ ship.hits, id < s.heap.length)
    (hin : ∀ j, j < ship.hits.length → InGrid (targetRow pos j) (targetCol pos j))
    (r c : Int)
    (hout : ∀ j, j < ship.hits.length → (r, c) ≠ (targetRow pos j, targetCol pos j)) :
    cellIdAt (placeShip s pos ship) r c = cellIdAt s r c :=
  placeLoop_frame pos ship.hits s 0 hWF hids (by simpa using hin) r c (by simpa using hout)

/-- After a placement the footprint cells are occupied by the ship. -/
lemma occupantAt_placeShip (s : GameState) (pos : Position) (ship : Ship) (hWF : WF s)
    (hship : ShipWF s ship)
    (hin : ∀ j, j < ship.hits.length → InGrid (targetRow pos j) (targetCol pos j)) :
    ∀ j, j < ship.hits.length →
      occupantAt (placeShip s pos ship) (targetRow pos j) (targetCol pos j) =
        some ship.id := by
  intro j hj
  have hids : ∀ id ∈ ship.hits, id < s.heap.length := fun id hid => (hship id hid).1
  have heff := placeShip_effect s pos ship hWF hids hin j hj
  have hmem : ship.hits.getD j 0 ∈ ship.hits := by
    rw [List.getD_eq_getElem?_getD, List.getElem?_eq_getElem hj]
    exact List.getElem_mem hj
  unfold occupantAt
  rw [heff, Option.some_bind, getSpace_placeShip]
  exact (hship _ hmem).2

/-! ### `findValidPosition`: no-throw and first-hit characterization -/

lemma posOf_col_nonneg (t : Fin 15 × Fin 15 × Bool) : 0 ≤ (posOf t).col := by
  simp [posOf]

lemma posOf_row_nonneg (t : Fin 15 × Fin 15 × Bool) : 0 ≤ (posOf t).row := by
  simp [posOf]

lemma fvpLoop_no_throw (s : GameState) (ship : Ship)
    (rng : Nat → Fin 15 × Fin 15 × Bool)
    (hok : ∀ k, ∃ b, canPlace s (posOf (rng k)) ship = .ok b) :
    ∀ fuel i, ∃ res, fvpLoop s ship rng i fuel = .ok res := by
  intro fuel
  induction fuel with
  | zero => intro i; exact ⟨none, rfl⟩
  | succ fuel ih =>
    intro i
    obtain ⟨b, hb⟩ := hok i
    unfold fvpLoop
    rw [hb]
    cases b with
    | true => exact ⟨some (posOf (rng i)), rfl⟩
    | false => exact ih (i + 1)

/-- The retry loop returns the first sampled valid position, if any. -/
lemma fvpLoop_characterization (s : GameState) (ship : Ship)
    (rng : Nat → Fin 15 × Fin 15 × Bool)
    (hok : ∀ k, ∃ b, canPlace s (posOf (rng k)) ship = .ok b) :
    ∀ fuel i,
    (∀ p, fvpLoop s ship rng i fuel = .ok (some p) →
      canPlace s p ship = .ok true ∧
      ∃ j, i ≤ j ∧ j < i + fuel ∧ p = posOf (rng j) ∧
        ∀ k, i ≤ k → k < j → canPlace s (posOf (rng k)) ship = .ok false) ∧
    (fvpLoop s ship rng i fuel = .ok none ↔
      ∀ j, i ≤ j → j < i + fuel → canPlace s (posOf (rng j)) ship = .ok false) := by
  intro fuel
  induction fuel with
  | zero =>
    intro i
    have hz : fvpLoop s ship rng i 0 = .ok none := rfl
    refine ⟨?_, ?_⟩
    · intro p hp
      rw [hz] at hp
      simp at hp
    · rw [hz]
      constructor
      · intro _ j h1 h2
        omega
      · intro _
        rfl
  | succ fuel ih =>
    intro i
    obtain ⟨b, hb⟩ := hok i
    constructor
    · intro p hp
      unfold fvpLoop at hp
      rw [hb] at hp
      cases b with
      | true =>
        have hpeq : p = posOf (rng i) := by
          have := Except.ok.inj hp
          exact (Option.some.inj this).symm
        subst hpeq
        exact ⟨hb, i, le_refl i, by omega, rfl, fun k hk1 hk2 => absurd hk1 (by omega)⟩
      | false =>
        obtain ⟨hcp, j, hj1, hj2, hj3, hj4⟩ := (ih (i + 1)).1 p hp
        refine ⟨hcp, j, by omega, by omega, hj3, ?_⟩
        intro k hk1 hk2
        rcases Nat.eq_or_lt_of_le hk1 with heq | hlt
        · rw [← heq]; exact hb
        · exact hj4 k (by omega) hk2
    · unfold fvpLoop
      rw [hb]
      cases b with
      | true =>
        constructor
        · intro hcontra; cases hcontra
        · intro hall
          have := hall i (le_refl i) (by omega)
          rw [hb] at this
          cases this
      | false =>
        rw [show (i + (fuel + 1)) = (i + 1) + fuel by omega]
        constructor
        · intro hnone j hj1 hj2
          rcases Nat.eq_or_lt_of_le hj1 with heq | hlt
          · rw [← heq]; exact hb
          · exact ((ih (i + 1)).2.mp hnone) j (by omega) hj2
        · intro hall
          exact (ih (i + 1)).2.mpr (fun j hj1 hj2 => hall j (by omega) hj2)

/-! ### Demo states shared by witnesses -/

/-- A fresh board on which a single length-1 ship (id 1) has been
allocated (but not placed). -/
def stA : GameState := (mkShip mkBoard 1 1).1

/-- The allocated length-1 ship. -/
def shA : Ship := (mkShip mkBoard 1 1).2

/-- A fresh board on which a length-2 ship (id 2) has been allocated. -/
def stB : GameState := (mkShip mkBoard 2 2).1

/-- The allocated length-2 ship. -/
def shB : Ship := (mkShip mkBoard 2 2).2

/-! ### Claim C2 -/

/-- C2: on a well-formed board, for every Position with `0 ≤ col, row`
and every ship of length `L ≥ 1`, `canPlace` returns true iff (1) the
last occupied cell (origin + L−1 along the orientation axis) is ≤ 14 in
both axes, (2) no cell of the footprint has an occupant, and (3) none of
the 8 neighbors (in-grid) of any footprint cell has an occupant. -/
theorem canPlace_true_iff (s : GameState) (pos : Position) (ship : Ship)
    (hWF : WF s) (hc : 0 ≤ pos.col) (hr : 0 ≤ pos.row)
    (hL : 1 ≤ ship.hits.length) :
    canPlace s pos ship = .ok true ↔ canPlaceSpec s pos ship = true := by
  rw [canPlace_eq_spec s pos ship hWF hc hr hL]
  constructor
  · intro h
    exact Except.ok.inj h
  · intro h
    rw [h]

/-- Witness for C2 at a concrete input: the fresh board, origin (0,0)
horizontal, the length-2 ship. -/
theorem canPlace_true_iff_witness :
    WF stB ∧ 0 ≤ (0 : Int) ∧ 1 ≤ shB.hits.length ∧
      (canPlace stB ⟨0, 0, true⟩ shB = .ok true ↔ canPlaceSpec stB ⟨0, 0, true⟩ shB = true) :=
  ⟨by decide, by decide, by decide,
    canPlace_true_iff stB ⟨0, 0, true⟩ shB (by decide) (by decide) (by decide) (by decide)⟩

/-! ### Claim C3 (corrected) -/

/-- C3 counterexample: `canPlace` does not return a boolean for every
Position — at column −1 (row 0, horizontal) it dereferences
`board[0][-1]` (`undefined`) and throws a TypeError, modelled as
`.error ()`. -/
theorem canPlace_throws_on_negative_col :
    canPlace stA ⟨-1, 0, true⟩ shA = .error () := by rfl

/-- C3 (amended): for every well-formed board and every Position with
nonnegative col and row, `canPlace` returns a boolean without throwing,
and `findValidPosition` — whose samples always lie in `[0,15)` — returns
a Position or null without throwing, for every ship and random source;
infeasibility is signalled only through the boolean/null result. -/
theorem canPlace_fvp_no_throw (s : GameState) (pos : Position) (ship : Ship)
    (rng : Nat → Fin 15 × Fin 15 × Bool) (hWF : WF s)
    (hc : 0 ≤ pos.col) (hr : 0 ≤ pos.row) :
    (∃ b, canPlace s pos ship = .ok b) ∧
    (∃ res, findValidPosition s ship rng = .ok res) := by
  refine ⟨canPlace_no_throw s pos ship hWF hc hr, ?_⟩
  exact fvpLoop_no_throw s ship rng
    (fun k => canPlace_no_throw s (posOf (rng k)) ship hWF
      (posOf_col_nonneg (rng k)) (posOf_row_nonneg (rng k))) 100000 0

/-- Witness for the amended C3 at a concrete input. -/
theorem canPlace_fvp_no_throw_witness :
    WF stA ∧ 0 ≤ (3 : Int) ∧
      ((∃ b, canPlace stA ⟨3, 5, false⟩ shA = .ok b) ∧
       (∃ res, findValidPosition stA shA (fun _ => (0, 0, true)) = .ok res)) :=
  ⟨by decide, by decide,
    canPlace_fvp_no_throw stA ⟨3, 5, false⟩ shA (fun _ => (0, 0, true))
      (by decide) (by decide) (by decide)⟩

/-! ### Claim C5 -/

/-- C5: under the precondition that all target cells are in-bounds and
unoccupied, `placeShip` assigns, for each `i < L`, the ship's `i`-th hit
segment as the occupant of the cell at column `col + i·horizontal` and
row `row + i·(1−horizontal)` (incrementing along the column when
horizontal, along the row otherwise).  `placeShip` is state-only in the
model (`GameState → GameState`): it returns no value. -/
theorem placeShip_assigns_segments (s : GameState) (pos : Position) (ship : Ship)
    (hWF : WF s) (hship : ShipWF s ship)
    (hin : ∀ j, j < ship.hits.length → InGrid (targetRow pos j) (targetCol pos j))
    (_hunocc : ∀ j, j < ship.hits.length →
      occupantAt s (targetRow pos j) (targetCol pos j) = none) :
    ∀ i, i < ship.hits.length →
      cellIdAt (placeShip s pos ship)
        (pos.row + (i : Int) * (1 - (if pos.horizontal then 1 else 0)))
        (pos.col + (i : Int) * (if pos.horizontal then 1 else 0)) =
      some (ship.hits.getD i 0) := by
  intro i hi
  have e1 : pos.row + (i : Int) * (1 - (if pos.horizontal then 1 else 0)) =
      targetRow pos i := by
    cases h : pos.horizontal <;> simp [targetRow, h]
  have e2 : pos.col + (i : Int) * (if pos.horizontal then 1 else 0) =
      targetCol pos i := by
    cases h : pos.horizontal <;> simp [targetCol, h]
  rw [e1, e2]
  exact placeShip_effect s pos ship hWF (fun id hid => (hship id hid).1) hin i hi

/-- Witness for C5 at a concrete input: the length-2 ship placed
vertically at (4,3). -/
theorem placeShip_assigns_segments_witness :
    WF stB ∧ ShipWF stB shB ∧
      (∀ j, j < shB.hits.length →
        InGrid (targetRow ⟨4, 3, false⟩ j) (targetCol ⟨4, 3, false⟩ j)) ∧
      (∀ j, j < shB.hits.length →
        occupantAt stB (targetRow ⟨4, 3, false⟩ j) (targetCol ⟨4, 3, false⟩ j) = none) ∧
      (∀ i, i < shB.hits.length →
        cellIdAt (placeShip stB ⟨4, 3, false⟩ shB)
          ((3 : Int) + (i : Int) * (1 - (if (true : Bool) = false then 1 else 0)))
          ((4 : Int) + (i : Int) * (if (true : Bool) = false then 1 else 0)) =
        some (shB.hits.getD i 0)) := by
  refine ⟨by decide, by decide, by decide, by decide, ?_⟩
  exact placeShip_assigns_segments stB ⟨4, 3, false⟩ shB
    (by decide) (by decide) (by decide) (by decide)

/-! ### Claim C7 -/

/-- C7: on a well-formed board, for every ship and every random source,
`findValidPosition` performs at most 100000 attempts, each sampling a
column in [0,15), a row in [0,15) and an orientation; a non-null result
is the first sampled Position accepted by `canPlace` (so it satisfies
`canPlace`), and the result is null exactly when all 100000 attempts
fail. -/
theorem findValidPosition_spec (s : GameState) (ship : Ship)
    (rng : Nat → Fin 15 × Fin 15 × Bool) (hWF : WF s) :
    (∀ p, findValidPosition s ship rng = .ok (some p) →
      canPlace s p ship = .ok true ∧
      ∃ j, j < 100000 ∧ p = posOf (rng j) ∧
        ∀ k, k < j → canPlace s (posOf (rng k)) ship = .ok false) ∧
    (findValidPosition s ship rng = .ok none ↔
      ∀ j, j < 100000 → canPlace s (posOf (rng j)) ship = .ok false) := by
  have hok : ∀ k, ∃ b, canPlace s (posOf (rng k)) ship = .ok b :=
    fun k => canPlace_no_throw s (posOf (rng k)) ship hWF
      (posOf_col_nonneg (rng k)) (posOf_row_nonneg (rng k))
  have h := fvpLoop_characterization s ship rng hok 100000 0
  unfold findValidPosition
  constructor
  · intro p hp
    obtain ⟨hcp, j, hj1, hj2, hj3, hj4⟩ := h.1 p hp
    exact ⟨hcp, j, by omega, hj3, fun k hk => hj4 k (by omega) hk⟩
  · constructor
    · intro hnone j hj
      exact h.2.mp hnone j (by omega) (by omega)
    · intro hall
      exact h.2.mpr (fun j _ hj2 => hall j (by omega))

/-- Witness for C7 at a concrete input. -/
theorem findValidPosition_spec_witness :
    WF stA ∧
    ((∀ p, findValidPosition stA shA (fun _ => (2, 3, true)) = .ok (some p) →
      canPlace stA p shA = .ok true ∧
      ∃ j, j < 100000 ∧ p = posOf (2, 3, true) ∧
        ∀ k, k < j → canPlace stA (posOf (2, 3, true)) shA = .ok false) ∧
    (findValidPosition stA shA (fun _ => (2, 3, true)) = .ok none ↔
      ∀ j, j < 100000 → canPlace stA (posOf (2, 3, true)) shA = .ok false)) :=
  ⟨by decide, findValidPosition_spec stA shA (fun _ => (2, 3, true)) (by decide)⟩

/-! ### Claim C6 -/

lemma cellIdAt_setSpace (s : GameState) (id : Nat) (sp : Space) (r c : Int) :
    cellIdAt (setSpace s id sp) r c = cellIdAt s r c := rfl

lemma getSpace_setSpace_self (s : GameState) (id : Nat) (sp : Space)
    (h : id < s.heap.length) : getSpace (setSpace s id sp) id = sp := by
  simp [getSpace, setSpace, List.getElem?_set_self h]

lemma setSpace_heap_length (s : GameState) (id : Nat) (sp : Space) :
    (setSpace s id sp).heap.length = s.heap.length := by
  simp [setSpace]

lemma receiveAttack_eq (s : GameState) (col row : Int) (id : Nat)
    (h : cellIdAt s row col = some id) :
    receiveAttack s col row =
      .ok (setSpace s id (Space.hitMark (getSpace s id)),
           (getSpace (setSpace s id (Space.hitMark (getSpace s id))) id).parent) := by
  unfold receiveAttack
  rw [h]

lemma checkHit_eq (s : GameState) (col row : Int) (id : Nat)
    (h : cellIdAt s row col = some id) :
    checkHit s col row = .ok (getSpace s id).isHit := by
  unfold checkHit
  rw [h]

/-- One attack step, with the stored Space resolved. -/
lemma receiveAttack_step (s : GameState) (col row : Int) (id : Nat)
    (hcell : cellIdAt s row col = some id) (hidlt : id < s.heap.length) :
    receiveAttack s col row =
      .ok (setSpace s id (Space.hitMark (getSpace s id)), (getSpace s id).parent) := by
  rw [receiveAttack_eq s col row id hcell,
    getSpace_setSpace_self s id (Space.hitMark (getSpace s id)) hidlt]
  rfl

/-- C6: for an in-bounds cell with no occupant, `receiveAttack` returns
no occupant and afterwards `checkHit` is true; a second `receiveAttack`
still returns no occupant and `checkHit` remains true (idempotent).  For
an occupied cell, `receiveAttack` returns the occupant ship. -/
theorem receiveAttack_checkHit_spec (s : GameState) (col row : Int)
    (hWF : WF s) (hin : InGrid row col) :
    (occupantAt s row col = none →
      ∃ s', receiveAttack s col row = .ok (s', none) ∧
        checkHit s' col row = .ok true ∧
        ∃ s'', receiveAttack s' col row = .ok (s'', none) ∧
          checkHit s'' col row = .ok true) ∧
    (∀ sh, occupantAt s row col = some sh →
      ∃ s', receiveAttack s col row = .ok (s', some sh)) := by
  obtain ⟨id, hcell, hidlt, hocc⟩ := cellIdAt_grid s hWF row col hin
  have hget1 : getSpace (setSpace s id (Space.hitMark (getSpace s id))) id =
      Space.hitMark (getSpace s id) := getSpace_setSpace_self s id _ hidlt
  constructor
  · intro hnone
    rw [hocc] at hnone
    have h1 := receiveAttack_step s col row id hcell hidlt
    rw [hnone] at h1
    refine ⟨_, h1, ?_, ?_⟩
    · rw [checkHit_eq (setSpace s id (Space.hitMark (getSpace s id))) col row id hcell,
        hget1]
      rfl
    · have hid1 : id < (setSpace s id (Space.hitMark (getSpace s id))).heap.length := by
        simpa [setSpace] using hidlt
      have h2 := receiveAttack_step (setSpace s id (Space.hitMark (getSpace s id)))
        col row id hcell hid1
      rw [hget1] at h2
      have hpar : (Space.hitMark (getSpace s id)).parent = none := by
        simp [Space.hitMark, hnone]
      rw [hpar] at h2
      refine ⟨_, h2, ?_⟩
      rw [checkHit_eq (setSpace (setSpace s id (Space.hitMark (getSpace s id))) id
          (Space.hitMark (Space.hitMark (getSpace s id)))) col row id hcell,
        getSpace_setSpace_self (setSpace s id (Space.hitMark (getSpace s id))) id
          (Space.hitMark (Space.hitMark (getSpace s id))) hid1]
      rfl
  · intro sh hsh
    rw [hocc] at hsh
    have h1 := receiveAttack_step s col row id hcell hidlt
    rw [hsh] at h1
    exact ⟨_, h1⟩

/-- Witness for C6 at a concrete input: cell (2,2) of the fresh board. -/
theorem receiveAttack_checkHit_spec_witness :
    WF stA ∧ InGrid 2 2 ∧
    ((occupantAt stA 2 2 = none →
      ∃ s', receiveAttack stA 2 2 = .ok (s', none) ∧
        checkHit s' 2 2 = .ok true ∧
        ∃ s'', receiveAttack s' 2 2 = .ok (s'', none) ∧
          checkHit s'' 2 2 = .ok true) ∧
    (∀ sh, occupantAt stA 2 2 = some sh →
      ∃ s', receiveAttack stA 2 2 = .ok (s', some sh))) :=
  ⟨by decide, by decide, receiveAttack_checkHit_spec stA 2 2 (by decide) (by decide)⟩

/-! ### Claim C10 -/

/-- C10: `placeShip` replaces each target cell outright, so a hit mark
previously recorded on an unoccupied target cell is discarded: if
`checkHit` is true on the unoccupied footprint cell `i` and a fresh
(unhit) ship is placed covering it, `checkHit` there returns false
afterwards. -/
theorem placeShip_discards_hit (s : GameState) (pos : Position) (ship : Ship)
    (i : Nat) (hWF : WF s) (hship : ShipWF s ship) (hi : i < ship.hits.length)
    (hin : ∀ j, j < ship.hits.length → InGrid (targetRow pos j) (targetCol pos j))
    (hfresh : ∀ id ∈ ship.hits, (getSpace s id).isHit = false)
    (_hhit : checkHit s (targetCol pos i) (targetRow pos i) = .ok true)
    (_hunocc : occupantAt s (targetRow pos i) (targetCol pos i) = none) :
    checkHit (placeShip s pos ship) (targetCol pos i) (targetRow pos i) = .ok false := by
  have heff := placeShip_effect s pos ship hWF (fun id hid => (hship id hid).1) hin i hi
  rw [checkHit_eq (placeShip s pos ship) _ _ _ heff, getSpace_placeShip]
  have hmem : ship.hits.getD i 0 ∈ ship.hits := by
    rw [List.getD_eq_getElem?_getD, List.getElem?_eq_getElem hi]
    exact List.getElem_mem hi
  rw [hfresh _ hmem]

/-- The fresh board with the length-1 ship allocated and the cell (3,3)
already hit (the state `receiveAttack stA 3 3` produces). -/
def stC : GameState := setSpace stA 48 (Space.hitMark (getSpace stA 48))

/-- Witness for C10 at a concrete input: cell (3,3) is hit but
unoccupied; placing the fresh length-1 ship on it clears the flag. -/
theorem placeShip_discards_hit_witness :
    WF stC ∧ ShipWF stC shA ∧ 0 < shA.hits.length ∧
    (∀ j, j < shA.hits.length →
      InGrid (targetRow ⟨3, 3, true⟩ j) (targetCol ⟨3, 3, true⟩ j)) ∧
    (∀ id ∈ shA.hits, (getSpace stC id).isHit = false) ∧
    checkHit stC (targetCol ⟨3, 3, true⟩ 0) (targetRow ⟨3, 3, true⟩ 0) = .ok true ∧
    occupantAt stC (targetRow ⟨3, 3, true⟩ 0) (targetCol ⟨3, 3, true⟩ 0) = none ∧
    checkHit (placeShip stC ⟨3, 3, true⟩ shA)
      (targetCol ⟨3, 3, true⟩ 0) (targetRow ⟨3, 3, true⟩ 0) = .ok false :=
  ⟨by decide, by decide, by decide, by decide, by decide, by decide, by decide,
    placeShip_discards_hit stC ⟨3, 3, true⟩ shA 0 (by decide) (by decide) (by decide)
      (by decide) (by decide) (by decide) (by decide)⟩

/-! ### Claim C4 (corrected) -/

lemma maxRowOf_eq_target (pos : Position) (L : Nat) (hL : 1 ≤ L) :
    maxRowOf pos L = targetRow pos (L - 1) := by
  have hcast : ((L - 1 : Nat) : Int) = (L : Int) - 1 := by omega
  cases h : pos.horizontal <;> simp [maxRowOf, targetRow, h, hcast]

lemma maxColOf_eq_target (pos : Position) (L : Nat) (hL : 1 ≤ L) :
    maxColOf pos L = targetCol pos (L - 1) := by
  have hcast : ((L - 1 : Nat) : Int) = (L : Int) - 1 := by omega
  cases h : pos.horizontal <;> simp [maxColOf, targetCol, h, hcast]

/-- Unpacking the specification predicate. -/
lemma canPlaceSpec_true_iff (s : GameState) (pos : Position) (ship : Ship) :
    canPlaceSpec s pos ship = true ↔
      (targetRow pos (ship.hits.length - 1) ≤ 14 ∧
       targetCol pos (ship.hits.length - 1) ≤ 14) ∧
      ∀ i, i < ship.hits.length →
        occupiedB s (targetRow pos i) (targetCol pos i) = false ∧
        neighborOccupied s (targetRow pos i) (targetCol pos i) = false := by
  unfold canPlaceSpec
  simp [List.all_eq_true, List.mem_range, Bool.and_eq_true, Bool.not_eq_true']

/-- A cell Chebyshev-adjacent to an occupied cell (but not equal to it)
has an occupied neighbor. -/
lemma neighborOccupied_of_touches (s : GameState) (r c R C : Int)
    (hocc : occupiedB s R C = true) (h1 : (r - R).natAbs ≤ 1)
    (h2 : (c - C).natAbs ≤ 1) (hne : ¬(r = R ∧ c = C)) :
    neighborOccupied s r c = true := by
  have hr : R = r - 1 ∨ R = r ∨ R = r + 1 := by omega
  have hc : C = c - 1 ∨ C = c ∨ C = c + 1 := by omega
  unfold neighborOccupied
  rcases hr with h | h | h <;> rcases hc with h' | h' | h' <;>
    subst h <;> subst h' <;> simp_all

/-- C4 counterexample: the claim quantifies over every overlapping or
adjacent Position, but an overlapping Position with a negative column
makes `canPlace` throw (dereferencing `board[row][-1]`) instead of
returning false: after placing the length-2 ship at (0,0) horizontally,
the Position (col −1, row 0, horizontal) has footprint (0,−1), (0,0) —
overlapping the ship's cell (0,0) — and `canPlace` errors on it. -/
theorem canPlace_after_place_throws :
    canPlace (placeShip stB ⟨0, 0, true⟩ shB) ⟨-1, 0, true⟩ shB = .error () := by
  decide

/-- C4 (amended to re-query positions with nonnegative col and row):
after a legal `placeShip`, every Position with nonnegative origin whose
footprint overlaps or is Chebyshev-adjacent to a cell of the placed ship
makes `canPlace` return false. -/
theorem canPlace_overlap_adjacent_false (s : GameState) (pos pos' : Position)
    (ship ship' : Ship) (hWF : WF s) (hship : ShipWF s ship)
    (hcp : canPlace s pos ship = .ok true)
    (hc' : 0 ≤ pos'.col) (hr' : 0 ≤ pos'.row)
    (htouch : ∃ i, i < ship'.hits.length ∧ ∃ j, j < ship.hits.length ∧
      (targetRow pos' i - targetRow pos j).natAbs ≤ 1 ∧
      (targetCol pos' i - targetCol pos j).natAbs ≤ 1) :
    canPlace (placeShip s pos ship) pos' ship' = .ok false := by
  obtain ⟨i, hi, j, hj, hdr, hdc⟩ := htouch
  have hL : 1 ≤ ship.hits.length := by omega
  have hL' : 1 ≤ ship'.hits.length := by omega
  obtain ⟨hc, hr⟩ := canPlace_ok_true_nonneg s pos ship hL hcp
  have hspec : canPlaceSpec s pos ship = true :=
    (canPlace_true_iff s pos ship hWF hc hr hL).mp hcp
  obtain ⟨⟨hbr, hbc⟩, -⟩ := (canPlaceSpec_true_iff s pos ship).mp hspec
  have hin : ∀ k, k < ship.hits.length → InGrid (targetRow pos k) (targetCol pos k) := by
    apply footprint_inGrid pos ship.hits.length hc hr
    · rw [maxColOf_eq_target pos ship.hits.length hL]; exact hbc
    · rw [maxRowOf_eq_target pos ship.hits.length hL]; exact hbr
  have hids : ∀ id ∈ ship.hits, id < s.heap.length := fun id hid => (hship id hid).1
  have hWF' := WF_placeShip s pos ship hWF hids
  have hoccj : occupiedB (placeShip s pos ship) (targetRow pos j) (targetCol pos j) = true := by
    unfold occupiedB
    rw [occupantAt_placeShip s pos ship hWF hship hin j hj]
    rfl
  rw [canPlace_eq_spec (placeShip s pos ship) pos' ship' hWF' hc' hr' hL']
  suffices h : canPlaceSpec (placeShip s pos ship) pos' ship' = false by rw [h]
  by_contra hne
  have hspec' : canPlaceSpec (placeShip s pos ship) pos' ship' = true := by
    cases hx : canPlaceSpec (placeShip s pos ship) pos' ship'
    · exact absurd hx hne
    · rfl
  obtain ⟨-, hall⟩ := (canPlaceSpec_true_iff _ pos' ship').mp hspec'
  obtain ⟨hocci, hnbi⟩ := hall i hi
  by_cases heq : targetRow pos' i = targetRow pos j ∧ targetCol pos' i = targetCol pos j
  · rw [heq.1, heq.2, hoccj] at hocci
    cases hocci
  · have hnb := neighborOccupied_of_touches (placeShip s pos ship)
      (targetRow pos' i) (targetCol pos' i) (targetRow pos j) (targetCol pos j)
      hoccj hdr hdc heq
    rw [hnb] at hnbi
    cases hnbi

/-- Witness for the amended C4 at a concrete input: after placing the
length-2 ship at (0,0), the diagonal neighbor (1,1) is rejected. -/
theorem canPlace_overlap_adjacent_false_witness :
    WF stB ∧ ShipWF stB shB ∧ canPlace stB ⟨0, 0, true⟩ shB = .ok true ∧
    (∃ i, i < shA.hits.length ∧ ∃ j, j < shB.hits.length ∧
      (targetRow ⟨1, 1, true⟩ i - targetRow ⟨0, 0, true⟩ j).natAbs ≤ 1 ∧
      (targetCol ⟨1, 1, true⟩ i - targetCol ⟨0, 0, true⟩ j).natAbs ≤ 1) ∧
    canPlace (placeShip stB ⟨0, 0, true⟩ shB) ⟨1, 1, true⟩ shA = .ok false :=
  ⟨by decide, by decide, by decide, ⟨0, by decide, 0, by decide, by decide, by decide⟩,
    canPlace_overlap_adjacent_false stB ⟨0, 0, true⟩ ⟨1, 1, true⟩ shB shA
      (by decide) (by decide) (by decide) (by decide) (by decide)
      ⟨0, by decide, 0, by decide, by decide, by decide⟩⟩

/-! ### Claim C8: `resetBoard` -/

/-- Cell `j` of row object `rid` holds a Space that is empty and unhit. -/
def FreshAt (s : GameState) (rid j : Nat) : Prop :=
  ∃ id, (rowObj s rid)[j]? = some id ∧ getSpace s id = Space.empty

lemma getSpace_oob (s : GameState) (id : Nat) (h : s.heap.length ≤ id) :
    getSpace s id = Space.empty := by
  unfold getSpace
  rw [List.getD_eq_getElem?_getD, List.getElem?_eq_none_iff.mpr h]
  rfl

lemma getD_append_single_empty (l : List Space) (id : Nat) :
    (l ++ [Space.empty]).getD id Space.empty = l.getD id Space.empty := by
  rcases lt_trichotomy id l.length with hlt | heq | hgt
  · rw [List.getD_eq_getElem?_getD, List.getD_eq_getElem?_getD,
      List.getElem?_append_left hlt]
  · subst heq
    have e1 : l[l.length]? = none := List.getElem?_eq_none_iff.mpr (le_refl _)
    have e2 : (l ++ [Space.empty])[l.length]? = some Space.empty := by
      rw [List.getElem?_append_right (le_refl _)]
      simp
    rw [List.getD_eq_getElem?_getD, List.getD_eq_getElem?_getD, e1, e2]
    rfl
  · have e1 : l[id]? = none := List.getElem?_eq_none_iff.mpr (by omega)
    have e2 : (l ++ [Space.empty])[id]? = none := by
      apply List.getElem?_eq_none_iff.mpr
      have : (l ++ [Space.empty]).length = l.length + 1 := by simp
      omega
    rw [List.getD_eq_getElem?_getD, List.getD_eq_getElem?_getD, e1, e2]

lemma getSpace_allocFresh (s : GameState) (rid j id : Nat) :
    getSpace (allocFresh s rid j) id = getSpace s id := by
  unfold getSpace allocFresh
  exact getD_append_single_empty s.heap id

lemma allocFresh_rows_length (s : GameState) (rid j : Nat) :
    (allocFresh s rid j).rows.length = s.rows.length := by
  simp [allocFresh]

lemma rowObj_allocFresh_other (s : GameState) (rid j rid' : Nat) (hne : rid' ≠ rid) :
    rowObj (allocFresh s rid j) rid' = rowObj s rid' := by
  simp [allocFresh, rowObj, List.getD_eq_getElem?_getD,
    List.getElem?_set_ne (Ne.symm hne)]

lemma rowObj_allocFresh_self (s : GameState) (rid j : Nat) (h : rid < s.rows.length) :
    rowObj (allocFresh s rid j) rid = (rowObj s rid).set j s.heap.length := by
  simp [allocFresh, rowObj, List.getD_eq_getElem?_getD, List.getElem?_set_self h]

/-- Invariant of the inner reset loop: rows other than `rid` and the
board are untouched, empties stay empty, and all cells of `rid` below
`j + fuel` end up fresh. -/
lemma resetRowLoop_spec (rid : Nat) :
    ∀ (fuel j : Nat) (s : GameState), rid < s.rows.length →
    j + fuel ≤ (rowObj s rid).length →
    (∀ j', j' < j → FreshAt s rid j') →
    ((resetRowLoop rid s j fuel).board = s.board ∧
     (resetRowLoop rid s j fuel).rows.length = s.rows.length ∧
     (∀ rid', rid' ≠ rid → rowObj (resetRowLoop rid s j fuel) rid' = rowObj s rid') ∧
     (rowObj (resetRowLoop rid s j fuel) rid).length = (rowObj s rid).length ∧
     (∀ id, getSpace s id = Space.empty →
        getSpace (resetRowLoop rid s j fuel) id = Space.empty) ∧
     (∀ j', j' < j + fuel → FreshAt (resetRowLoop rid s j fuel) rid j')) := by
  intro fuel
  induction fuel with
  | zero =>
    intro j s _ _ h3
    exact ⟨rfl, rfl, fun _ _ => rfl, rfl, fun _ h => h,
      fun j' hj' => h3 j' (by omega)⟩
  | succ fuel ih =>
    intro j s h1 h2 h3
    have hrlen : rid < (allocFresh s rid j).rows.length := by
      rw [allocFresh_rows_length]; exact h1
    have hself := rowObj_allocFresh_self s rid j h1
    have hlen1 : (rowObj (allocFresh s rid j) rid).length = (rowObj s rid).length := by
      rw [hself]; simp
    have hfresh1 : ∀ j', j' < j + 1 → FreshAt (allocFresh s rid j) rid j' := by
      intro j' hj'
      rcases Nat.lt_or_ge j' j with hlt | hge
      · obtain ⟨id, hid1, hid2⟩ := h3 j' hlt
        refine ⟨id, ?_, ?_⟩
        · rw [hself, List.getElem?_set_ne (by omega)]
          exact hid1
        · rw [getSpace_allocFresh]
          exact hid2
      · have hj'j : j' = j := by omega
        subst hj'j
        refine ⟨s.heap.length, ?_, ?_⟩
        · rw [hself, List.getElem?_set_self (by omega)]
        · rw [getSpace_allocFresh]
          exact getSpace_oob s _ (le_refl _)
    obtain ⟨g1, g2, g3, g4, g5, g6⟩ := ih (j + 1) (allocFresh s rid j) hrlen
      (by rw [hlen1]; omega) hfresh1
    have hstep : resetRowLoop rid s j (fuel + 1) =
        resetRowLoop rid (allocFresh s rid j) (j + 1) fuel := rfl
    rw [hstep]
    refine ⟨g1.trans rfl, g2.trans (allocFresh_rows_length s rid j), ?_, ?_, ?_, ?_⟩
    · intro rid' hne
      rw [g3 rid' hne, rowObj_allocFresh_other s rid j rid' hne]
    · rw [g4, hlen1]
    · intro id hempty
      exact g5 id (by rw [getSpace_allocFresh]; exact hempty)
    · intro j' hj'
      exact g6 j' (by omega)

/-- Invariant of the outer reset loop: the board is untouched, all row
lengths are preserved, and every row with index below `i + fuel` ends up
fully fresh. -/
lemma resetBoardLoop_spec :
    ∀ (fuel i : Nat) (s : GameState),
    (∀ rid ∈ s.board, rid < s.rows.length) →
    i + fuel ≤ s.board.length →
    (∀ i', i' < i → ∀ rid, s.board[i']? = some rid →
        ∀ j, j < (rowObj s rid).length → FreshAt s rid j) →
    ((resetBoardLoop s i fuel).board = s.board ∧
     (∀ rid', (rowObj (resetBoardLoop s i fuel) rid').length = (rowObj s rid').length) ∧
     (∀ i', i' < i + fuel → ∀ rid, s.board[i']? = some rid →
        ∀ j, j < (rowObj s rid).length → FreshAt (resetBoardLoop s i fuel) rid j)) := by
  intro fuel
  induction fuel with
  | zero =>
    intro i s _ _ hpre
    exact ⟨rfl, fun _ => rfl, fun i' hi' => hpre i' (by omega)⟩
  | succ fuel ih =>
    intro i s hb hle hpre
    have hi : i < s.board.length := by omega
    have hrid : s.board.get? i = some (s.board[i]) := by
      rw [List.get?_eq_getElem?]
      exact List.getElem?_eq_getElem hi
    have hrid' : s.board[i]? = some (s.board[i]) := List.getElem?_eq_getElem hi
    have hmem : (s.board[i]) ∈ s.board := List.getElem_mem hi
    have hridlt : (s.board[i]) < s.rows.length := hb _ hmem
    obtain ⟨r1, r2, r3, r4, r5, r6⟩ := resetRowLoop_spec (s.board[i])
      (rowObj s (s.board[i])).length 0 s hridlt (by omega)
      (fun j' hj' => absurd hj' (by omega))
    have hstep : resetBoardLoop s i (fuel + 1) =
        resetBoardLoop (resetRowLoop (s.board[i]) s 0
          (rowObj s (s.board[i])).length) (i + 1) fuel := by
      show (match s.board.get? i with
        | none => s
        | some rid =>
          resetBoardLoop (resetRowLoop rid s 0 (rowObj s rid).length) (i + 1) fuel) =
        resetBoardLoop (resetRowLoop (s.board[i]) s 0
          (rowObj s (s.board[i])).length) (i + 1) fuel
      rw [hrid]
    have hrowlen1 : ∀ rid', (rowObj (resetRowLoop (s.board[i]) s 0
        (rowObj s (s.board[i])).length) rid').length = (rowObj s rid').length := by
      intro rid'
      by_cases h : rid' = s.board[i]
      · rw [h, r4]
      · rw [r3 rid' h]
    have hb1 : ∀ rid' ∈ (resetRowLoop (s.board[i]) s 0
        (rowObj s (s.board[i])).length).board,
        rid' < (resetRowLoop (s.board[i]) s 0
          (rowObj s (s.board[i])).length).rows.length := by
      intro rid' hmem'
      rw [r2]
      apply hb
      rwa [r1] at hmem'
    have hle1 : (i + 1) + fuel ≤ (resetRowLoop (s.board[i]) s 0
        (rowObj s (s.board[i])).length).board.length := by
      rw [r1]; omega
    have hpre1 : ∀ i', i' < i + 1 → ∀ rid',
        (resetRowLoop (s.board[i]) s 0
          (rowObj s (s.board[i])).length).board[i']? = some rid' →
        ∀ j, j < (rowObj (resetRowLoop (s.board[i]) s 0
          (rowObj s (s.board[i])).length) rid').length →
        FreshAt (resetRowLoop (s.board[i]) s 0
          (rowObj s (s.board[i])).length) rid' j := by
      intro i' hi' rid' hcell j hj
      rw [r1] at hcell
      rw [hrowlen1 rid'] at hj
      by_cases hcase : rid' = s.board[i]
      · subst hcase
        exact r6 j (by omega)
      · have hi'' : i' < i := by
          rcases Nat.lt_or_ge i' i with h | h
          · exact h
          · have hii : i' = i := by omega
            subst hii
            rw [hrid'] at hcell
            exact absurd (Option.some.inj hcell).symm hcase
        obtain ⟨id, hid1, hid2⟩ := hpre i' hi'' rid' hcell j hj
        refine ⟨id, ?_, r5 id hid2⟩
        rw [r3 rid' hcase]
        exact hid1
    obtain ⟨g1, g2, g3⟩ := ih (i + 1) _ hb1 hle1 hpre1
    rw [hstep]
    refine ⟨g1.trans r1, ?_, ?_⟩
    · intro rid'
      rw [g2 rid', hrowlen1 rid']
    · intro i' hi' rid' hcell j hj
      apply g3 i' (by omega) rid'
      · rw [r1]; exact hcell
      · rw [hrowlen1 rid']; exact hj

/-- C8: after `resetBoard`, every one of the 15×15 cells is unoccupied
and not hit: `checkHit` returns false and the occupant query reports no
occupant; this holds for every well-formed board state (in particular
every state reachable by placements and attacks). -/
theorem resetBoard_clears (s : GameState) (hWF : WF s) (col row : Int)
    (hin : InGrid row col) :
    checkHit (resetBoard s) col row = .ok false ∧
    occupantAt (resetBoard s) row col = none := by
  obtain ⟨hr0, hr14, hc0, hc14⟩ := hin
  obtain ⟨hlen, hnodup, hprops⟩ := hWF
  unfold resetBoard
  obtain ⟨g1, g2, g3⟩ := resetBoardLoop_spec s.board.length 0 s
    (fun rid hmem => (hprops rid hmem).1) (by omega)
    (fun i' hi' => absurd hi' (by omega))
  have hrlt : row.toNat < s.board.length := by omega
  have hrid : s.board[row.toNat]? = some (s.board[row.toNat]) :=
    List.getElem?_eq_getElem hrlt
  have hmem : (s.board[row.toNat]) ∈ s.board := List.getElem_mem hrlt
  have hrowlen : (rowObj s (s.board[row.toNat])).length = 15 :=
    (hprops _ hmem).2.1
  obtain ⟨id, hid1, hid2⟩ := g3 row.toNat (by omega) _ hrid col.toNat (by omega)
  have hcell : cellIdAt (resetBoardLoop s 0 s.board.length) row col = some id := by
    simp [cellIdAt, rowAt, rowIdAt, cellAt, not_lt.mpr hr0, not_lt.mpr hc0,
      g1, hrid, hid1]
  constructor
  · rw [checkHit_eq _ col row id hcell, hid2]
    rfl
  · unfold occupantAt
    rw [hcell, Option.some_bind, hid2]
    rfl

/-- Witness for C8 at a concrete input: resetting the board with the
hit cell (3,3) clears cell (3,3). -/
theorem resetBoard_clears_witness :
    WF stC ∧ InGrid 3 3 ∧
    (checkHit (resetBoard stC) 3 3 = .ok false ∧
     occupantAt (resetBoard stC) 3 3 = none) :=
  ⟨by decide, by decide, resetBoard_clears stC (by decide) 3 3 (by decide)⟩

/-! ### Claim C9: aliasing of board cells and ship segments -/

lemma canPlace_true_footprint_inGrid (s : GameState) (pos : Position) (ship : Ship)
    (hWF : WF s) (hcp : canPlace s pos ship = .ok true) (hL : 1 ≤ ship.hits.length) :
    ∀ k, k < ship.hits.length → InGrid (targetRow pos k) (targetCol pos k) := by
  obtain ⟨hc, hr⟩ := canPlace_ok_true_nonneg s pos ship hL hcp
  have hspec := (canPlace_true_iff s pos ship hWF hc hr hL).mp hcp
  obtain ⟨⟨hbr, hbc⟩, -⟩ := (canPlaceSpec_true_iff s pos ship).mp hspec
  apply footprint_inGrid pos ship.hits.length hc hr
  · rw [maxColOf_eq_target pos ship.hits.length hL]; exact hbc
  · rw [maxRowOf_eq_target pos ship.hits.length hL]; exact hbr

lemma cellIdAt_congr (s s' : GameState) (hrows : s'.rows = s.rows)
    (hboard : s'.board = s.board) (r c : Int) :
    cellIdAt s' r c = cellIdAt s r c := by
  unfold cellIdAt rowAt rowIdAt rowObj
  rw [hrows, hboard]

/-- A successful attack only mutates the Space heap. -/
lemma receiveAttack_ok_rows_board (s : GameState) (col row : Int)
    (s' : GameState) (occ : Option Nat)
    (h : receiveAttack s col row = .ok (s', occ)) :
    s'.rows = s.rows ∧ s'.board = s.board := by
  unfold receiveAttack at h
  cases hc : cellIdAt s row col with
  | none =>
    rw [hc] at h
    cases h
  | some id =>
    rw [hc] at h
    have h2 := Except.ok.inj h
    have hs' : setSpace s id (Space.hitMark (getSpace s id)) = s' :=
      congrArg Prod.fst h2
    rw [← hs']
    exact ⟨rfl, rfl⟩

lemma getD_mem_of_lt (l : List Nat) (i : Nat) (h : i < l.length) :
    l.getD i 0 ∈ l := by
  rw [List.getD_eq_getElem?_getD, List.getElem?_eq_getElem h]
  exact List.getElem_mem h

/-- C9: after a legal `placeShip`, footprint cell `i` holds the very
Space object that is the ship's `i`-th hit segment (the same heap id);
`receiveAttack` on such a cell therefore calls `hit()` on the ship's own
segment — the ship's recorded damage is updated by the board attack
itself — and this aliasing is preserved by further attacks and by
further legal placements (only `resetBoard` replaces the cells). -/
theorem placeShip_aliases_segments (s : GameState) (pos : Position) (ship : Ship)
    (hWF : WF s) (hship : ShipWF s ship)
    (hcp : canPlace s pos ship = .ok true) (hL : 1 ≤ ship.hits.length) :
    (∀ i, i < ship.hits.length →
      cellIdAt (placeShip s pos ship) (targetRow pos i) (targetCol pos i) =
        some (ship.hits.getD i 0)) ∧
    (∀ i, i < ship.hits.length → ∀ s' occ,
      receiveAttack (placeShip s pos ship) (targetCol pos i) (targetRow pos i) =
        .ok (s', occ) →
      (getSpace s' (ship.hits.getD i 0)).isHit = true ∧ occ = some ship.id) ∧
    (∀ col row s' occ,
      receiveAttack (placeShip s pos ship) col row = .ok (s', occ) →
      ∀ i, i < ship.hits.length →
        cellIdAt s' (targetRow pos i) (targetCol pos i) = some (ship.hits.getD i 0)) ∧
    (∀ pos₂ ship₂, ShipWF (placeShip s pos ship) ship₂ →
      canPlace (placeShip s pos ship) pos₂ ship₂ = .ok true →
      1 ≤ ship₂.hits.length →
      ∀ i, i < ship.hits.length →
        cellIdAt (placeShip (placeShip s pos ship) pos₂ ship₂)
          (targetRow pos i) (targetCol pos i) = some (ship.hits.getD i 0)) := by
  have hin := canPlace_true_footprint_inGrid s pos ship hWF hcp hL
  have hids : ∀ id ∈ ship.hits, id < s.heap.length := fun id hid => (hship id hid).1
  have heff := placeShip_effect s pos ship hWF hids hin
  have hWF1 := WF_placeShip s pos ship hWF hids
  refine ⟨heff, ?_, ?_, ?_⟩
  · intro i hi s' occ hatk
    have hmem : ship.hits.getD i 0 ∈ ship.hits := getD_mem_of_lt ship.hits i hi
    have hidlt : ship.hits.getD i 0 < (placeShip s pos ship).heap.length := by
      rw [placeShip_heap]
      exact (hship _ hmem).1
    have hstep := receiveAttack_step (placeShip s pos ship)
      (targetCol pos i) (targetRow pos i) (ship.hits.getD i 0) (heff i hi) hidlt
    have h2 := Except.ok.inj (hstep.symm.trans hatk)
    have hs' : setSpace (placeShip s pos ship) (ship.hits.getD i 0)
        (Space.hitMark (getSpace (placeShip s pos ship) (ship.hits.getD i 0))) = s' :=
      congrArg Prod.fst h2
    have hocc : (getSpace (placeShip s pos ship) (ship.hits.getD i 0)).parent = occ :=
      congrArg Prod.snd h2
    constructor
    · rw [← hs', getSpace_setSpace_self _ _ _ hidlt]
      rfl
    · rw [← hocc, getSpace_placeShip]
      exact (hship _ hmem).2
  · intro col row s' occ hatk i hi
    obtain ⟨hrows, hboard⟩ :=
      receiveAttack_ok_rows_board (placeShip s pos ship) col row s' occ hatk
    rw [cellIdAt_congr (placeShip s pos ship) s' hrows hboard]
    exact heff i hi
  · intro pos₂ ship₂ hship₂ hcp₂ hL₂ i hi
    have hin₂ := canPlace_true_footprint_inGrid (placeShip s pos ship) pos₂ ship₂
      hWF1 hcp₂ hL₂
    have hids₂ : ∀ id ∈ ship₂.hits, id < (placeShip s pos ship).heap.length :=
      fun id hid => (hship₂ id hid).1
    rw [placeShip_frame (placeShip s pos ship) pos₂ ship₂ hWF1 hids₂ hin₂
      (targetRow pos i) (targetCol pos i) ?hout]
    · exact heff i hi
    case hout =>
      intro j hj heqcell
      -- footprint cell j of the second placement is unoccupied, ours is occupied
      obtain ⟨hc₂, hr₂⟩ := canPlace_ok_true_nonneg (placeShip s pos ship) pos₂ ship₂ hL₂ hcp₂
      have hspec₂ := (canPlace_true_iff (placeShip s pos ship) pos₂ ship₂
        hWF1 hc₂ hr₂ hL₂).mp hcp₂
      obtain ⟨-, hall₂⟩ := (canPlaceSpec_true_iff (placeShip s pos ship) pos₂ ship₂).mp hspec₂
      have hfree := (hall₂ j hj).1
      have hoccup : occupiedB (placeShip s pos ship) (targetRow pos i) (targetCol pos i) = true := by
        unfold occupiedB
        rw [occupantAt_placeShip s pos ship hWF hship hin i hi]
        rfl
      rw [Prod.mk.injEq] at heqcell
      rw [← heqcell.1, ← heqcell.2, hoccup] at hfree
      cases hfree

/-- Witness for C9 at a concrete input: the length-2 ship placed at
(0,0) horizontally on the fresh board. -/
theorem placeShip_aliases_segments_witness :
    WF stB ∧ ShipWF stB shB ∧ canPlace stB ⟨0, 0, true⟩ shB = .ok true ∧
    1 ≤ shB.hits.length ∧
    (∀ i, i < shB.hits.length →
      cellIdAt (placeShip stB ⟨0, 0, true⟩ shB)
        (targetRow ⟨0, 0, true⟩ i) (targetCol ⟨0, 0, true⟩ i) =
        some (shB.hits.getD i 0)) :=
  ⟨by decide, by decide, by decide, by decide,
    (placeShip_aliases_segments stB ⟨0, 0, true⟩ shB
      (by decide) (by decide) (by decide) (by decide)).1⟩

/-! ### Claim C1: `autoPlaceShips` rollback -/

/-- The random source for the rollback scenario: every draw proposes
column 0, row 0, horizontal. -/
def c1Rng : Nat → Nat → Fin 15 × Fin 15 × Bool := fun _ _ => (0, 0, true)

/-- The fresh board with the length-1 ship (id 1) and a length-16 ship
(id 2) allocated. -/
def stD : GameState := (mkShip stA 2 16).1

/-- The length-16 ship: it can never fit on a 15×15 board. -/
def shD16 : Ship := (mkShip stA 2 16).2

/-- One step of the `for (const ship of ships)` loop, as an equation on
symbolic arguments (so that rewriting with it never evaluates the
100000-attempt search). -/
lemma autoPlaceLoop_cons (backup : List Nat) (rng : Nat → Nat → Fin 15 × Fin 15 × Bool)
    (s : GameState) (ship : Ship) (rest : List Ship) (k : Nat) :
    autoPlaceLoop backup rng s (ship :: rest) k =
      match findValidPosition s ship (rng k) with
      | .error e => .error e
      | .ok none => .ok (false, ⟨s.heap, s.rows, backup⟩)
      | .ok (some pos) => autoPlaceLoop backup rng (placeShip s pos ship) rest (k + 1) :=
  rfl

/-- C1 (code bug): `autoPlaceShips` does not restore the board on
failure.  On the fresh board with ships `[length-1, length-16]` and a
random source always proposing (0,0,horizontal), the length-1 ship is
placed at (0,0), the length-16 ship can never fit, so the call returns
false — but cell (0,0) is still occupied by ship 1 afterwards.  The
backup `{ ...this.board }` copies only the outer array: it holds the
same row objects `placeShip` mutates in place, so `this.board =
backupBoard` does not undo any placement (in the model, the board's
row-reference list never changed, so the restore is a no-op; in JS the
board additionally becomes a plain object). -/
theorem autoPlaceShips_rollback_bug :
    ∃ s', autoPlaceShips stD [shA, shD16] c1Rng = .ok (false, s') ∧
      occupantAt s' 0 0 = some shA.id ∧ s'.board = stD.board := by
  refine ⟨⟨(placeShip stD ⟨0, 0, true⟩ shA).heap,
    (placeShip stD ⟨0, 0, true⟩ shA).rows, stD.board⟩, ?_, by decide, rfl⟩
  have h1 : findValidPosition stD shA (c1Rng 0) = .ok (some ⟨0, 0, true⟩) := by
    decide
  have hWF1 : WF (placeShip stD ⟨0, 0, true⟩ shA) := by decide
  have hall : ∀ j, j < 100000 →
      canPlace (placeShip stD ⟨0, 0, true⟩ shA) (posOf (c1Rng 1 j)) shD16 = .ok false := by
    intro j _
    show canPlace (placeShip stD ⟨0, 0, true⟩ shA) (posOf (0, 0, true)) shD16 = .ok false
    decide
  have h2 : findValidPosition (placeShip stD ⟨0, 0, true⟩ shA) shD16 (c1Rng 1) =
      .ok none :=
    (findValidPosition_spec (placeShip stD ⟨0, 0, true⟩ shA) shD16 (c1Rng 1) hWF1).2.mpr
      hall
  show autoPlaceLoop stD.board c1Rng stD [shA, shD16] 0 = _
  have e1 : autoPlaceLoop stD.board c1Rng stD [shA, shD16] 0 =
      autoPlaceLoop stD.board c1Rng (placeShip stD ⟨0, 0, true⟩ shA) [shD16] 1 := by
    rw [autoPlaceLoop_cons, h1]
  have e2 : autoPlaceLoop stD.board c1Rng (placeShip stD ⟨0, 0, true⟩ shA) [shD16] 1 =
      .ok (false, ⟨(placeShip stD ⟨0, 0, true⟩ shA).heap,
        (placeShip stD ⟨0, 0, true⟩ shA).rows, stD.board⟩) := by
    rw [autoPlaceLoop_cons, h2]
  exact e1.trans e2

/-- The part of C1 that does hold: a single length-16 ship on the fresh
board fails immediately (no placement happened yet), autoPlaceShips
returns false, and every cell is still unoccupied and unhit. -/
theorem autoPlaceShips_len16_board_empty :
    ∃ s', autoPlaceShips stD [shD16] c1Rng = .ok (false, s') ∧
      ∀ col row : Int, InGrid row col →
        occupantAt s' row col = none ∧ checkHit s' col row = .ok false := by
  refine ⟨⟨stD.heap, stD.rows, stD.board⟩, ?_, ?_⟩
  · have hall : ∀ j, j < 100000 →
        canPlace stD (posOf (c1Rng 0 j)) shD16 = .ok false := by
      intro j _
      show canPlace stD (posOf (0, 0, true)) shD16 = .ok false
      decide
    have h2 : findValidPosition stD shD16 (c1Rng 0) = .ok none :=
      (findValidPosition_spec stD shD16 (c1Rng 0) (by decide)).2.mpr hall
    show autoPlaceLoop stD.board c1Rng stD [shD16] 0 = _
    rw [autoPlaceLoop_cons, h2]
  · have hnat : ∀ rn : Fin 15, ∀ cn : Fin 15,
        occupantAt stD ((rn : Nat) : Int) ((cn : Nat) : Int) = none ∧
        checkHit stD ((cn : Nat) : Int) ((rn : Nat) : Int) = .ok false := by decide
    intro col row hin
    obtain ⟨hr0, hr14, hc0, hc14⟩ := hin
    have hr := hnat ⟨row.toNat, by omega⟩ ⟨col.toNat, by omega⟩
    simp only [Fin.val_mk] at hr
    rw [Int.toNat_of_nonneg hr0, Int.toNat_of_nonneg hc0] at hr
    exact hr

end Battleship
